import Mathlib

/-!
Verification of the BadgerDB buffer pool manager (`src/src/buffer.cpp`)
against its natural-language specification.

The manager is embedded shallowly: `BufState` carries the descriptor table,
the page pool, the frame index and the clock hand; every public operation is
a pure function from a state (and a read-only file oracle) to a result, a
successor state and the list of File-layer side effects it performed.
-/

namespace BadgerDB

/-- Frame identifiers are indices into the descriptor table and the page pool. -/
abbrev FrameId := Nat

/-- Page numbers within a file. -/
abbrev PageId := Nat

/-- Modelled from the spec: §4.1 — file identity is pointer identity of the
`File*` the client passes in (the `File` class is not part of the repository
sources); pointer identities are modelled as natural numbers. -/
abbrev FileId := Nat

/-- Modelled from the spec: §6 — a `Page` is a fixed-size byte container with
an embedded page number (the `Page` class is not part of the repository
sources); the byte content is abstracted into a single natural number. -/
structure Pg where
  page_number : PageId
  data : Nat
deriving DecidableEq

/-- Modelled from the spec: §3 and §4.4 — the frame descriptor `BufDesc`,
declared in the header `buffer.h`, which is not among the repository sources.
The `frameNo` field always equals the array index and is therefore omitted. -/
structure BufDesc where
  file : Option FileId
  pageNo : PageId
  pinCnt : Nat
  dirty : Bool
  refbit : Bool
  valid : Bool
deriving DecidableEq

/-- Modelled from the spec: §4.4 — `BufDesc::Clear()` resets a descriptor to
the invalid-frame defaults: file absent, `pinCnt = 0`, all bits false. The
`pageNo` left behind is unspecified and is modelled as `0`. -/
def clearedDesc : BufDesc :=
  { file := none, pageNo := 0, pinCnt := 0, dirty := false, refbit := false, valid := false }

/-- Modelled from the spec: §4.4 — `BufDesc::Set(file, pageNo)` establishes
`file, pageNo, pinCnt = 1, dirty = false, refbit = true, valid = true`. -/
def BufDesc.Set (f : FileId) (p : PageId) : BufDesc :=
  { file := some f, pageNo := p, pinCnt := 1, dirty := false, refbit := true, valid := true }

/-- Clearing only the reference bit of a descriptor (one step of the sweep). -/
def refbitOff (d : BufDesc) : BufDesc := { d with refbit := false }

/-- Modelled from the spec: §4.1 — the frame index `BufHashTbl` (its source
file is not in the repository) maps `(file, pageNo)` to a frame index; it is
modelled as an association list whose keys stay unique. -/
abbrev HashTbl := List ((FileId × PageId) × FrameId)

/-- Frame-index lookup: the frame holding `(f, p)`, if resident. -/
def hlookup (ht : HashTbl) (f : FileId) (p : PageId) : Option FrameId :=
  (ht.find? (fun e => e.1 == (f, p))).map (fun e => e.2)

/-- Frame-index insertion; the manager only inserts keys it just found absent. -/
def hinsert (ht : HashTbl) (f : FileId) (p : PageId) (fr : FrameId) : HashTbl :=
  ((f, p), fr) :: ht

/-- Modelled from the spec: §4.1 — `remove` deletes the entry for the key.
Its NotFound failure cannot occur at the manager's call sites (they remove
keys they have just looked up, or keys the residency invariant guarantees are
present), and §7 states HashNotFound never escapes the core, so removal is
modelled as plain erasure. -/
def hremove (ht : HashTbl) (f : FileId) (p : PageId) : HashTbl :=
  ht.filter (fun e => !(e.1 == (f, p)))

/-- An observable call into the File layer, in the order the manager makes it. -/
inductive IOEvent where
  | readP (f : FileId) (p : PageId)
  | writeP (f : FileId) (pg : Pg)
  | allocateP (f : FileId)
  | deleteP (f : FileId) (p : PageId)
deriving DecidableEq

/-- The error taxonomy of §7 (exception classes of the C++ code). The
`filename` decorating the C++ exceptions is represented by the file identity. -/
inductive BufError where
  | bufferExceeded
  | pageNotPinned (filename : FileId) (pageNo : PageId) (frameNo : FrameId)
  | pagePinned (filename : FileId) (pageNo : PageId) (frameNo : FrameId)
  | badBuffer (frameNo : FrameId) (dirty : Bool) (valid : Bool) (refbit : Bool)
  | invalidPage (f : FileId) (p : PageId)
deriving DecidableEq

/-- The pool-manager state: `BufMgr`'s fields `numBufs`, `bufDescTable`,
`bufPool`, `hashTable` and `clockHand`. -/
structure BufState where
  numBufs : Nat
  bufDescTable : List BufDesc
  bufPool : List Pg
  hashTable : HashTbl
  clockHand : Nat
deriving DecidableEq

/-- The descriptor of frame `i` (`bufDescTable[i]`). -/
def BufState.desc (st : BufState) (i : Nat) : BufDesc :=
  st.bufDescTable.getD i clearedDesc

/-- The page slot of frame `i` (`bufPool[i]`). -/
def BufState.pool (st : BufState) (i : Nat) : Pg :=
  st.bufPool.getD i ⟨0, 0⟩

/-- Overwrite the descriptor of frame `i`. -/
def BufState.setDesc (st : BufState) (i : Nat) (d : BufDesc) : BufState :=
  { st with bufDescTable := st.bufDescTable.set i d }

/-- Assign the reference bit of frame `i`. -/
def BufState.setRefbitTo (st : BufState) (i : Nat) (b : Bool) : BufState :=
  st.setDesc i { st.desc i with refbit := b }

/-- Modelled from the spec: §6 — the behaviour of the File layer the manager
calls into. `readPage f p = none` models an InvalidPage failure;
`allocatePage f` is the page number `File::allocatePage` hands back. -/
structure FileOracle where
  readPage : FileId → PageId → Option Pg
  allocatePage : FileId → PageId

/-- `BufMgr::advanceClock` (buffer.cpp:55): `clockHand = (clockHand+1) % numBufs`. -/
def advanceClock (st : BufState) : BufState :=
  { st with clockHand := (st.clockHand + 1) % st.numBufs }

/-- The `while (pass < 2)` loop of `BufMgr::allocBuf` (buffer.cpp:66-101).
`flag` remembers the starting clock hand, `pass` counts returns to it; the
loop advances the clock, returns an invalid frame immediately, gives a second
chance to frames with the reference bit set, skips pinned frames, and
otherwise evicts: write-back if dirty, frame-index removal, `Clear()`. The
`fuel` argument only bounds the recursion; `allocBuf` passes more fuel than
the two passes of the sweep can consume, so it never runs out. -/
def allocBufLoop (st : BufState) (flag : Nat) (pass : Nat) (fuel : Nat) :
    Except BufError FrameId × BufState × List IOEvent :=
  match fuel with
  | 0 => (.error .bufferExceeded, st, [])
  | fuel + 1 =>
    if 2 ≤ pass then
      (.error .bufferExceeded, st, [])
    else
      let st1 := advanceClock st
      let pass1 := if st1.clockHand = flag then pass + 1 else pass
      let d := st1.desc st1.clockHand
      if d.valid = false then
        (.ok st1.clockHand, st1, [])
      else if d.refbit = true then
        allocBufLoop (st1.setRefbitTo st1.clockHand false) flag pass1 fuel
      else if 0 < d.pinCnt then
        allocBufLoop st1 flag pass1 fuel
      else
        let evs := if d.dirty then [IOEvent.writeP (d.file.getD 0) (st1.pool st1.clockHand)] else []
        let st2 := { st1 with hashTable := hremove st1.hashTable (d.file.getD 0) d.pageNo }
        let st3 := st2.setDesc st1.clockHand clearedDesc
        (.ok st1.clockHand, st3, evs)

/-- `BufMgr::allocBuf` (buffer.cpp:66-101): run the clock sweep from the
current hand with `pass = 0`. -/
def allocBuf (st : BufState) : Except BufError FrameId × BufState × List IOEvent :=
  allocBufLoop st st.clockHand 0 (2 * st.numBufs + 2)

/-- `BufMgr::readPage` (buffer.cpp:112-131): on a hit increment the pin count;
on a miss allocate a frame, read the page from the file, insert it into the
frame index and `Set` the descriptor; in both success cases raise the
reference bit and return the frame. Failures of `allocBuf` and of
`file->readPage` propagate. -/
def readPage (fs : FileOracle) (st : BufState) (file : FileId) (pageNo : PageId) :
    Except BufError FrameId × BufState × List IOEvent :=
  match hlookup st.hashTable file pageNo with
  | some f =>
    let stA := st.setDesc f { st.desc f with pinCnt := (st.desc f).pinCnt + 1 }
    let stB := stA.setRefbitTo f true
    (.ok f, stB, [])
  | none =>
    match allocBuf st with
    | (.error e, st1, evs) => (.error e, st1, evs)
    | (.ok f, st1, evs) =>
      match fs.readPage file pageNo with
      | none => (.error (.invalidPage file pageNo), st1, evs ++ [IOEvent.readP file pageNo])
      | some pg =>
        let st2 := { st1 with bufPool := st1.bufPool.set f pg,
                              hashTable := hinsert st1.hashTable file pageNo f }
        let st3 := st2.setDesc f (BufDesc.Set file pageNo)
        let st4 := st3.setRefbitTo f true
        (.ok f, st4, evs ++ [IOEvent.readP file pageNo])

/-- `BufMgr::unPinPage` (buffer.cpp:141-157): silently return when the page is
not resident; raise PageNotPinned when its pin count is already zero;
otherwise decrement the pin count and, when the argument says so, set dirty. -/
def unPinPage (st : BufState) (file : FileId) (pageNo : PageId) (dirty : Bool) :
    Except BufError Unit × BufState × List IOEvent :=
  match hlookup st.hashTable file pageNo with
  | none => (.ok (), st, [])
  | some f =>
    if (st.desc f).pinCnt = 0 then
      (.error (.pageNotPinned file pageNo f), st, [])
    else
      let stA := st.setDesc f { st.desc f with pinCnt := (st.desc f).pinCnt - 1 }
      let stB := if dirty then stA.setDesc f { stA.desc f with dirty := true } else stA
      (.ok (), stB, [])

/-- The precondition scan of `BufMgr::flushFile` (buffer.cpp:172-178): walk the
given frame indices and report the first frame owned by `file` that is invalid
(BadBuffer) or pinned (PagePinned). -/
def flushCheck (st : BufState) (file : FileId) : List Nat → Option BufError
  | [] => none
  | i :: rest =>
    if (st.desc i).file = some file then
      if (st.desc i).valid = false then
        some (.badBuffer i (st.desc i).dirty (st.desc i).valid (st.desc i).refbit)
      else if 0 < (st.desc i).pinCnt then
        some (.pagePinned file (st.desc i).pageNo i)
      else flushCheck st file rest
    else flushCheck st file rest

/-- One frame of the flush scan of `BufMgr::flushFile` (buffer.cpp:185-193):
write back a dirty page and reset its dirty bit, then remove the frame-index
entry and `Clear()` the descriptor. Frames of other files are untouched. -/
def flushStep (file : FileId) (acc : BufState × List IOEvent) (i : Nat) :
    BufState × List IOEvent :=
  let st := acc.1
  if (st.desc i).file = some file then
    let evs1 := if (st.desc i).dirty then acc.2 ++ [IOEvent.writeP file (st.pool i)] else acc.2
    let stA := if (st.desc i).dirty then st.setDesc i { st.desc i with dirty := false } else st
    let stB := { stA with hashTable := hremove stA.hashTable file (stA.desc i).pageNo }
    (stB.setDesc i clearedDesc, evs1)
  else acc

/-- `BufMgr::flushFile` (buffer.cpp:168-194): the precondition scan followed,
only when it found no violation, by the flush scan over all frames. -/
def flushFile (st : BufState) (file : FileId) :
    Except BufError Unit × BufState × List IOEvent :=
  match flushCheck st file (List.range st.numBufs) with
  | some e => (.error e, st, [])
  | none =>
    let out := (List.range st.numBufs).foldl (flushStep file) (st, [])
    (.ok (), out.1, out.2)

/-- `BufMgr::allocPage` (buffer.cpp:204-218): allocate a page in the file
first, then obtain a frame, read the new page into it, insert it into the
frame index and `Set` the descriptor. -/
def allocPage (fs : FileOracle) (st : BufState) (file : FileId) :
    Except BufError (PageId × FrameId) × BufState × List IOEvent :=
  let newPage := fs.allocatePage file
  match allocBuf st with
  | (.error e, st1, evs) => (.error e, st1, IOEvent.allocateP file :: evs)
  | (.ok f, st1, evs) =>
    match fs.readPage file newPage with
    | none =>
      (.error (.invalidPage file newPage), st1,
        IOEvent.allocateP file :: (evs ++ [IOEvent.readP file newPage]))
    | some pg =>
      let st2 := { st1 with bufPool := st1.bufPool.set f pg,
                            hashTable := hinsert st1.hashTable file newPage f }
      let st3 := st2.setDesc f (BufDesc.Set file newPage)
      (.ok (newPage, f), st3,
        IOEvent.allocateP file :: (evs ++ [IOEvent.readP file newPage]))

/-- `BufMgr::disposePage` (buffer.cpp:227-242): when the page is resident,
`Clear()` its frame — without checking the pin count — and drop the
frame-index entry; in every case delete the page from the file. -/
def disposePage (st : BufState) (file : FileId) (pageNo : PageId) :
    Except BufError Unit × BufState × List IOEvent :=
  let st1 :=
    match hlookup st.hashTable file pageNo with
    | some f =>
      let stA := st.setDesc f clearedDesc
      { stA with hashTable := hremove stA.hashTable file pageNo }
    | none => st
  (.ok (), st1, [IOEvent.deleteP file pageNo])

/-- The constructor `BufMgr::BufMgr` (buffer.cpp:19-35): every frame starts
invalid, the hash table is empty, and the clock hand starts at `bufs - 1`. -/
def mkBufMgr (bufs : Nat) : BufState :=
  { numBufs := bufs
  , bufDescTable := List.replicate bufs clearedDesc
  , bufPool := List.replicate bufs ⟨0, 0⟩
  , hashTable := []
  , clockHand := bufs - 1 }

/-- The hash-table size computed by the constructor (buffer.cpp:31):
`((((int)(bufs*1.2))*2)/2)+1` with C integer division. The cast
`(int)(bufs*1.2)` is the floor of the double product `bufs * 1.2`; since the
double nearest to 1.2 lies within `2^-52/5` below `6/5`, that floor equals
`⌊6·bufs/5⌋` for every frame count the constructor accepts, so it is modelled
as exact rational flooring `6 * bufs / 5` on naturals. -/
def htsize (bufs : Nat) : Nat :=
  ((6 * bufs / 5) * 2) / 2 + 1

/-! Small list helpers used to reason about `getD`-based table access. -/

lemma getD_set_self {α : Type} (l : List α) (i : Nat) (a d : α) (h : i < l.length) :
    (l.set i a).getD i d = a := by
  induction l generalizing i with
  | nil => simp at h
  | cons x xs ih =>
    cases i with
    | zero => simp
    | succ n => simpa using ih n (by simpa using h)

lemma getD_set_ne {α : Type} (l : List α) (i j : Nat) (a d : α) (h : j ≠ i) :
    (l.set i a).getD j d = l.getD j d := by
  induction l generalizing i j with
  | nil => simp
  | cons x xs ih =>
    cases i with
    | zero =>
      cases j with
      | zero => exact absurd rfl h
      | succ m => simp
    | succ n =>
      cases j with
      | zero => simp
      | succ m => simpa using ih n m (fun hc => h (by simpa using hc))

lemma getD_of_le {α : Type} (l : List α) (i : Nat) (d : α) (h : l.length ≤ i) :
    l.getD i d = d := by
  induction l generalizing i with
  | nil => simp
  | cons x xs ih =>
    cases i with
    | zero => simp at h
    | succ n => simpa using ih n (by simpa using h)

lemma desc_lt_length_of_pin {st : BufState} {i : Nat} (h : (st.desc i).pinCnt ≠ 0) :
    i < st.bufDescTable.length := by
  by_contra hlt
  have : st.desc i = clearedDesc := getD_of_le _ _ _ (Nat.le_of_not_lt hlt)
  rw [this] at h
  exact h rfl

lemma desc_lt_length_of_valid {st : BufState} {i : Nat} (h : (st.desc i).valid = true) :
    i < st.bufDescTable.length := by
  by_contra hlt
  have : st.desc i = clearedDesc := getD_of_le _ _ _ (Nat.le_of_not_lt hlt)
  rw [this] at h
  simp [clearedDesc] at h

lemma desc_setDesc_self {st : BufState} {i : Nat} (d : BufDesc)
    (h : i < st.bufDescTable.length) : (st.setDesc i d).desc i = d := by
  show (st.bufDescTable.set i d).getD i clearedDesc = d
  exact getD_set_self _ _ _ _ h

lemma desc_setDesc_ne {st : BufState} {i : Nat} (d : BufDesc) (j : Nat) (h : j ≠ i) :
    (st.setDesc i d).desc j = st.desc j := by
  show (st.bufDescTable.set i d).getD j clearedDesc = st.bufDescTable.getD j clearedDesc
  exact getD_set_ne _ _ _ _ _ h

/-! Claim C10: the hash-table size arithmetic of the constructor. -/

/-- Claim C10: the hash table created at construction has exactly
`⌊1.2 · numBufs⌋ + 1` buckets; the `*2/2` in `((((int)(bufs*1.2))*2)/2)+1`
cancels under integer division, so the bucket count is not odd for every
`numBufs` — `numBufs = 11` yields `14` buckets. -/
theorem c10_htsize_buckets :
    (∀ n : Nat, htsize n = 6 * n / 5 + 1) ∧ htsize 11 = 14 ∧ ¬ Odd (htsize 11) := by
  refine ⟨fun n => ?_, by decide, by decide⟩
  unfold htsize
  omega

/-! Claim C5: the three behaviours of `unPinPage`. -/

/-- Claim C5: `unPinPage(file, pageNo, dirty)` returns silently with no state
change when `(file, pageNo)` is not in the frame index; raises PageNotPinned
with no state change when the page is resident in a frame with pin count 0;
and otherwise decrements the pin count and leaves the dirty bit equal to the
old bit OR-ed with the `dirty` argument — it sets the bit exactly when the
argument is true and never clears an already-set bit. -/
theorem c5_unPinPage_cases (st : BufState) (file : FileId) (pageNo : PageId) (d : Bool) :
    (hlookup st.hashTable file pageNo = none →
       unPinPage st file pageNo d = (.ok (), st, [])) ∧
    (∀ f, hlookup st.hashTable file pageNo = some f → (st.desc f).pinCnt = 0 →
       unPinPage st file pageNo d = (.error (.pageNotPinned file pageNo f), st, [])) ∧
    (∀ f, hlookup st.hashTable file pageNo = some f → 0 < (st.desc f).pinCnt →
       (unPinPage st file pageNo d).1 = .ok () ∧
       (unPinPage st file pageNo d).2.2 = [] ∧
       (unPinPage st file pageNo d).2.1.desc f =
         { st.desc f with pinCnt := (st.desc f).pinCnt - 1,
                          dirty := ((st.desc f).dirty || d) } ∧
       (∀ j, j ≠ f → (unPinPage st file pageNo d).2.1.desc j = st.desc j) ∧
       (unPinPage st file pageNo d).2.1.bufPool = st.bufPool ∧
       (unPinPage st file pageNo d).2.1.hashTable = st.hashTable ∧
       (unPinPage st file pageNo d).2.1.clockHand = st.clockHand ∧
       (unPinPage st file pageNo d).2.1.numBufs = st.numBufs) := by
  refine ⟨fun h => by simp [unPinPage, h], fun f hf h0 => by simp [unPinPage, hf, h0], ?_⟩
  intro f hf hpin
  have hne : (st.desc f).pinCnt ≠ 0 := Nat.pos_iff_ne_zero.mp hpin
  have hflen : f < st.bufDescTable.length := desc_lt_length_of_pin hne
  have hA := @desc_setDesc_self st f { st.desc f with pinCnt := (st.desc f).pinCnt - 1 } hflen
  have hAlen : f < (st.setDesc f
      { st.desc f with pinCnt := (st.desc f).pinCnt - 1 }).bufDescTable.length := by
    simpa [BufState.setDesc] using hflen
  cases d with
  | false =>
    have hres : unPinPage st file pageNo false =
        (.ok (), st.setDesc f { st.desc f with pinCnt := (st.desc f).pinCnt - 1 }, []) := by
      simp [unPinPage, hf, hne]
    rw [hres]
    refine ⟨rfl, rfl, ?_, ?_, rfl, rfl, rfl, rfl⟩
    · rw [hA]; simp
    · intro j hj
      exact desc_setDesc_ne _ j hj
  | true =>
    have hres : unPinPage st file pageNo true =
        (.ok (), (st.setDesc f { st.desc f with pinCnt := (st.desc f).pinCnt - 1 }).setDesc f
          { (st.setDesc f { st.desc f with pinCnt := (st.desc f).pinCnt - 1 }).desc f with
              dirty := true }, []) := by
      simp [unPinPage, hf, hne]
    rw [hres]
    refine ⟨rfl, rfl, ?_, ?_, rfl, rfl, rfl, rfl⟩
    · rw [desc_setDesc_self _ hAlen, hA]; simp
    · intro j hj
      rw [desc_setDesc_ne _ j hj, desc_setDesc_ne _ j hj]

/-- Witness for claim C5: a concrete one-frame state with pin count 2, where
an unpin with `dirty = true` decrements the pin count and sets the dirty bit. -/
theorem c5_unPinPage_cases_witness :
    (unPinPage ⟨1, [⟨some 3, 4, 2, false, true, true⟩], [⟨4, 9⟩], [((3, 4), 0)], 0⟩
        3 4 true).2.1.desc 0 =
      { file := some 3, pageNo := 4, pinCnt := 1, dirty := true, refbit := true, valid := true } := by
  have h := (c5_unPinPage_cases
      ⟨1, [⟨some 3, 4, 2, false, true, true⟩], [⟨4, 9⟩], [((3, 4), 0)], 0⟩
      3 4 true).2.2 0 (by decide) (by decide)
  rw [h.2.2.1]
  decide

/-! Claim C9: the frame effect of a `readPage` hit. -/

/-- Claim C9: when `(file, pageNo)` is resident in frame `f`, `readPage`
modifies only `pinCnt(f)` and `refbit(f)`: the clock hand, the frame index,
every page slot and every other frame descriptor are unchanged, and no
eviction and no File I/O occurs on the hit path. -/
theorem c9_readPage_hit_frame_effect (fs : FileOracle) (st : BufState)
    (file : FileId) (pageNo : PageId) (f : FrameId)
    (hf : hlookup st.hashTable file pageNo = some f)
    (hlen : f < st.bufDescTable.length) :
    (readPage fs st file pageNo).1 = .ok f ∧
    (readPage fs st file pageNo).2.2 = [] ∧
    (readPage fs st file pageNo).2.1.desc f =
      { st.desc f with pinCnt := (st.desc f).pinCnt + 1, refbit := true } ∧
    (∀ j, j ≠ f → (readPage fs st file pageNo).2.1.desc j = st.desc j) ∧
    (readPage fs st file pageNo).2.1.bufPool = st.bufPool ∧
    (readPage fs st file pageNo).2.1.hashTable = st.hashTable ∧
    (readPage fs st file pageNo).2.1.clockHand = st.clockHand ∧
    (readPage fs st file pageNo).2.1.numBufs = st.numBufs := by
  have hA := @desc_setDesc_self st f { st.desc f with pinCnt := (st.desc f).pinCnt + 1 } hlen
  have hAlen : f < (st.setDesc f
      { st.desc f with pinCnt := (st.desc f).pinCnt + 1 }).bufDescTable.length := by
    simpa [BufState.setDesc] using hlen
  have hres : readPage fs st file pageNo =
      (.ok f, (st.setDesc f { st.desc f with pinCnt := (st.desc f).pinCnt + 1 }).setDesc f
        { (st.setDesc f { st.desc f with pinCnt := (st.desc f).pinCnt + 1 }).desc f with
            refbit := true }, []) := by
    simp [readPage, hf, BufState.setRefbitTo]
  rw [hres]
  refine ⟨rfl, rfl, ?_, ?_, rfl, rfl, rfl, rfl⟩
  · rw [desc_setDesc_self _ hAlen, hA]
  · intro j hj
    rw [desc_setDesc_ne _ j hj, desc_setDesc_ne _ j hj]

/-- Witness for claim C9: a hit on a concrete one-frame state only bumps the
pin count and raises the reference bit of that frame. -/
theorem c9_readPage_hit_frame_effect_witness :
    (readPage ⟨fun _ _ => none, fun _ => 0⟩
        ⟨1, [⟨some 3, 4, 1, true, false, true⟩], [⟨4, 9⟩], [((3, 4), 0)], 0⟩ 3 4).2.1.desc 0 =
      { file := some 3, pageNo := 4, pinCnt := 2, dirty := true, refbit := true, valid := true } := by
  have h := c9_readPage_hit_frame_effect ⟨fun _ _ => none, fun _ => 0⟩
      ⟨1, [⟨some 3, 4, 1, true, false, true⟩], [⟨4, 9⟩], [((3, 4), 0)], 0⟩
      3 4 0 (by decide) (by decide)
  rw [h.2.2.1]
  decide

/-! The residency invariant of §3, holding between public calls. -/

/-- The invariants I1-I6 of spec §3 together with structural well-formedness:
the two tables have `numBufs` entries, the clock hand is in range, invalid
frames are unpinned, every frame-index entry points at a valid in-range frame
holding exactly that key, every valid frame is indexed under its own key, and
the index has unique keys and unique frames. -/
def Inv (st : BufState) : Prop :=
  st.bufDescTable.length = st.numBufs ∧
  st.bufPool.length = st.numBufs ∧
  st.clockHand < st.numBufs ∧
  (∀ i, i < st.numBufs → (st.desc i).valid = false → (st.desc i).pinCnt = 0) ∧
  (∀ e ∈ st.hashTable, e.2 < st.numBufs ∧ (st.desc e.2).valid = true ∧
     (st.desc e.2).file = some e.1.1 ∧ (st.desc e.2).pageNo = e.1.2) ∧
  (∀ i, i < st.numBufs → (st.desc i).valid = true →
     (st.desc i).file = some ((st.desc i).file.getD 0) ∧
     (((st.desc i).file.getD 0, (st.desc i).pageNo), i) ∈ st.hashTable) ∧
  (st.hashTable.map Prod.fst).Nodup ∧
  (st.hashTable.map Prod.snd).Nodup

instance (st : BufState) : Decidable (Inv st) := by
  unfold Inv
  infer_instance

lemma desc_lt_length_of_file {st : BufState} {i : Nat} {f : FileId}
    (h : (st.desc i).file = some f) : i < st.bufDescTable.length := by
  by_contra hlt
  have hd : st.desc i = clearedDesc := getD_of_le _ _ _ (Nat.le_of_not_lt hlt)
  rw [hd] at h
  simp [clearedDesc] at h

/-! Properties of the `flushFile` precondition scan. -/

lemma flushCheck_eq_none {st : BufState} {file : FileId} :
    ∀ l : List Nat, flushCheck st file l = none ↔
      ∀ i ∈ l, (st.desc i).file = some file →
        ((st.desc i).valid = true ∧ (st.desc i).pinCnt = 0) := by
  intro l
  induction l with
  | nil => simp [flushCheck]
  | cons i rest ih =>
    simp only [flushCheck]
    by_cases hm : (st.desc i).file = some file
    · rw [if_pos hm]
      by_cases hv : (st.desc i).valid = false
      · rw [if_pos hv]
        constructor
        · intro h; simp at h
        · intro h
          have := (h i (by simp) hm).1
          rw [this] at hv
          simp at hv
      · rw [if_neg hv]
        have hv' : (st.desc i).valid = true := by
          revert hv; cases (st.desc i).valid <;> simp
        by_cases hp : 0 < (st.desc i).pinCnt
        · rw [if_pos hp]
          constructor
          · intro h; simp at h
          · intro h
            have := (h i (by simp) hm).2
            omega
        · rw [if_neg hp]
          have hp0 : (st.desc i).pinCnt = 0 := by omega
          rw [ih]
          constructor
          · intro h j hj hmj
            rcases List.mem_cons.mp hj with rfl | hj'
            · exact ⟨hv', hp0⟩
            · exact h j hj' hmj
          · intro h j hj hmj
            exact h j (List.mem_cons_of_mem _ hj) hmj
    · rw [if_neg hm, ih]
      constructor
      · intro h j hj hmj
        rcases List.mem_cons.mp hj with rfl | hj'
        · exact absurd hmj hm
        · exact h j hj' hmj
      · intro h j hj hmj
        exact h j (List.mem_cons_of_mem _ hj) hmj

lemma flushCheck_some_shape {st : BufState} {file : FileId} :
    ∀ (l : List Nat) (e : BufError), flushCheck st file l = some e →
      (∃ p fr, e = .pagePinned file p fr) ∨ (∃ fr dt vl rb, e = .badBuffer fr dt vl rb) := by
  intro l
  induction l with
  | nil => intro e h; simp [flushCheck] at h
  | cons i rest ih =>
    intro e h
    simp only [flushCheck] at h
    by_cases hm : (st.desc i).file = some file
    · rw [if_pos hm] at h
      by_cases hv : (st.desc i).valid = false
      · rw [if_pos hv] at h
        exact Or.inr ⟨i, _, _, _, (Option.some_inj.mp h).symm⟩
      · rw [if_neg hv] at h
        by_cases hp : 0 < (st.desc i).pinCnt
        · rw [if_pos hp] at h
          exact Or.inl ⟨_, i, (Option.some_inj.mp h).symm⟩
        · rw [if_neg hp] at h
          exact ih e h
    · rw [if_neg hm] at h
      exact ih e h

lemma flushCheck_some_of_allvalid {st : BufState} {file : FileId} :
    ∀ (l : List Nat) (e : BufError),
      (∀ i ∈ l, (st.desc i).file = some file → (st.desc i).valid = true) →
      flushCheck st file l = some e →
      ∃ p fr, e = .pagePinned file p fr := by
  intro l
  induction l with
  | nil => intro e _ h; simp [flushCheck] at h
  | cons i rest ih =>
    intro e hval h
    simp only [flushCheck] at h
    by_cases hm : (st.desc i).file = some file
    · rw [if_pos hm] at h
      have hv : ¬ (st.desc i).valid = false := by
        rw [hval i (by simp) hm]; simp
      rw [if_neg hv] at h
      by_cases hp : 0 < (st.desc i).pinCnt
      · rw [if_pos hp] at h
        exact ⟨_, i, (Option.some_inj.mp h).symm⟩
      · rw [if_neg hp] at h
        exact ih e (fun j hj => hval j (List.mem_cons_of_mem _ hj)) h
    · rw [if_neg hm] at h
      exact ih e (fun j hj => hval j (List.mem_cons_of_mem _ hj)) h

lemma flushCheck_some_of_nopin {st : BufState} {file : FileId} :
    ∀ (l : List Nat) (e : BufError),
      (∀ i ∈ l, (st.desc i).file = some file → (st.desc i).pinCnt = 0) →
      flushCheck st file l = some e →
      ∃ fr dt vl rb, e = .badBuffer fr dt vl rb := by
  intro l
  induction l with
  | nil => intro e _ h; simp [flushCheck] at h
  | cons i rest ih =>
    intro e hpin h
    simp only [flushCheck] at h
    by_cases hm : (st.desc i).file = some file
    · rw [if_pos hm] at h
      by_cases hv : (st.desc i).valid = false
      · rw [if_pos hv] at h
        exact ⟨i, _, _, _, (Option.some_inj.mp h).symm⟩
      · rw [if_neg hv] at h
        have hp : ¬ 0 < (st.desc i).pinCnt := by
          rw [hpin i (by simp) hm]; simp
        rw [if_neg hp] at h
        exact ih e (fun j hj => hpin j (List.mem_cons_of_mem _ hj)) h
    · rw [if_neg hm] at h
      exact ih e (fun j hj => hpin j (List.mem_cons_of_mem _ hj)) h

/-! Claim C3: error cases of `flushFile` have no side effect. -/

/-- Claim C3: when some frame associated with `file` is pinned or is
associated but invalid, `flushFile` raises PagePinned respectively BadBuffer
and performs no side effect at all: the state is returned unchanged and no
File call is made. When every associated frame is valid the error is
PagePinned; when no associated frame is pinned the error is BadBuffer. -/
theorem c3_flushFile_error_no_side_effect (st : BufState) (file : FileId)
    (h : ∃ i, i < st.numBufs ∧ (st.desc i).file = some file ∧
      (0 < (st.desc i).pinCnt ∨ (st.desc i).valid = false)) :
    (∃ e, flushFile st file = (.error e, st, []) ∧
      ((∃ p fr, e = .pagePinned file p fr) ∨ (∃ fr dt vl rb, e = .badBuffer fr dt vl rb))) ∧
    ((∀ i, i < st.numBufs → (st.desc i).file = some file → (st.desc i).valid = true) →
      ∃ p fr, (flushFile st file).1 = .error (.pagePinned file p fr)) ∧
    ((∀ i, i < st.numBufs → (st.desc i).file = some file → (st.desc i).pinCnt = 0) →
      ∃ fr dt vl rb, (flushFile st file).1 = .error (.badBuffer fr dt vl rb)) := by
  obtain ⟨i, hi, hm, hbad⟩ := h
  have hch : ¬ flushCheck st file (List.range st.numBufs) = none := by
    rw [flushCheck_eq_none]
    intro hall
    have := hall i (List.mem_range.mpr hi) hm
    rcases hbad with hp | hv
    · omega
    · rw [this.1] at hv; simp at hv
  obtain ⟨e, he⟩ := Option.ne_none_iff_exists'.mp hch
  refine ⟨⟨e, ?_, flushCheck_some_shape _ e he⟩, ?_, ?_⟩
  · simp [flushFile, he]
  · intro hval
    obtain ⟨p, fr, rfl⟩ := flushCheck_some_of_allvalid _ e
      (fun j hj => hval j (List.mem_range.mp hj)) he
    exact ⟨p, fr, by simp [flushFile, he]⟩
  · intro hpin
    obtain ⟨fr, dt, vl, rb, rfl⟩ := flushCheck_some_of_nopin _ e
      (fun j hj => hpin j (List.mem_range.mp hj)) he
    exact ⟨fr, dt, vl, rb, by simp [flushFile, he]⟩

/-- Witness for claim C3: on a concrete state holding one pinned page of file
2, `flushFile` leaves the state untouched and performs no File call. -/
theorem c3_flushFile_error_no_side_effect_witness :
    (flushFile ⟨1, [⟨some 2, 5, 1, false, false, true⟩], [⟨5, 7⟩], [((2, 5), 0)], 0⟩ 2).2.1 =
      ⟨1, [⟨some 2, 5, 1, false, false, true⟩], [⟨5, 7⟩], [((2, 5), 0)], 0⟩ ∧
    (flushFile ⟨1, [⟨some 2, 5, 1, false, false, true⟩], [⟨5, 7⟩], [((2, 5), 0)], 0⟩ 2).2.2 = [] := by
  obtain ⟨e, he, -⟩ := (c3_flushFile_error_no_side_effect
    ⟨1, [⟨some 2, 5, 1, false, false, true⟩], [⟨5, 7⟩], [((2, 5), 0)], 0⟩ 2
    ⟨0, by decide, by decide, Or.inl (by decide)⟩).1
  rw [he]
  exact ⟨rfl, rfl⟩

/-! The flush scan, characterised frame by frame. -/

lemma mem_hremove {ht : HashTbl} {f : FileId} {p : PageId} {e : (FileId × PageId) × FrameId}
    (h : e ∈ hremove ht f p) : e ∈ ht ∧ ¬ e.1 = (f, p) := by
  unfold hremove at h
  have h' := List.mem_filter.mp h
  refine ⟨h'.1, ?_⟩
  simpa using h'.2

lemma hremove_sublist (ht : HashTbl) (f : FileId) (p : PageId) :
    (hremove ht f p).Sublist ht :=
  List.filter_sublist _

lemma mem_hremove_of_ne {ht : HashTbl} {f : FileId} {p : PageId}
    {e : (FileId × PageId) × FrameId} (he : e ∈ ht) (hne : ¬ e.1 = (f, p)) :
    e ∈ hremove ht f p := by
  unfold hremove
  refine List.mem_filter.mpr ⟨he, ?_⟩
  simpa using hne

lemma pool_eq_of_bufPool {s s' : BufState} (h : s'.bufPool = s.bufPool) (i : Nat) :
    s'.pool i = s.pool i := by
  unfold BufState.pool
  rw [h]

/-- The effect of one step of the flush scan on a frame of the flushed file:
the write-back happens exactly when the frame is dirty, the key is removed,
and the descriptor is cleared (the intermediate dirty-bit reset of the C++
code is absorbed by the final `Clear()`). -/
lemma flushStep_eq_match {file : FileId} {s : BufState} {evs : List IOEvent} {i : Nat}
    (hm : (s.desc i).file = some file) :
    flushStep file (s, evs) i =
      (({ s with hashTable := hremove s.hashTable file (s.desc i).pageNo }).setDesc i clearedDesc,
       if (s.desc i).dirty then evs ++ [IOEvent.writeP file (s.pool i)] else evs) := by
  have hilen : i < s.bufDescTable.length := desc_lt_length_of_file hm
  by_cases hd : (s.desc i).dirty = true
  · have hAdesc : (BufState.mk s.numBufs (s.bufDescTable.set i { s.desc i with dirty := false })
        s.bufPool s.hashTable s.clockHand).desc i = { s.desc i with dirty := false } :=
      @desc_setDesc_self s i _ hilen
    simp only [flushStep]
    rw [if_pos hm]
    simp [hd, hAdesc, BufState.setDesc, List.set_set]
  · have hd' : (s.desc i).dirty = false := by revert hd; cases (s.desc i).dirty <;> simp
    simp only [flushStep]
    rw [if_pos hm]
    simp [hd', BufState.setDesc]

lemma flushStep_eq_skip {file : FileId} {s : BufState} {evs : List IOEvent} {i : Nat}
    (hm : ¬ (s.desc i).file = some file) :
    flushStep file (s, evs) i = (s, evs) := by
  simp [flushStep, hm]

/-- What the flush scan guarantees about its final state and event list,
relative to the state it starts from, for any duplicate-free frame list. -/
structure FlushFoldOut (s : BufState) (l : List Nat) (evs : List IOEvent) (file : FileId)
    (out : BufState × List IOEvent) : Prop where
  numBufs : out.1.numBufs = s.numBufs
  clock : out.1.clockHand = s.clockHand
  pool : out.1.bufPool = s.bufPool
  len : out.1.bufDescTable.length = s.bufDescTable.length
  untouched : ∀ j, j ∉ l → out.1.desc j = s.desc j
  clearedAt : ∀ i ∈ l, (s.desc i).file = some file → out.1.desc i = clearedDesc
  skipped : ∀ i ∈ l, ¬ (s.desc i).file = some file → out.1.desc i = s.desc i
  sub : out.1.hashTable.Sublist s.hashTable
  removed : ∀ i ∈ l, (s.desc i).file = some file →
    ∀ e ∈ out.1.hashTable, ¬ e.1 = (file, (s.desc i).pageNo)
  written : ∀ i ∈ l, (s.desc i).file = some file → (s.desc i).dirty = true →
    IOEvent.writeP file (s.pool i) ∈ out.2
  evsMono : ∀ x ∈ evs, x ∈ out.2
  kept : ∀ e ∈ s.hashTable, ¬ e.1.1 = file → e ∈ out.1.hashTable

lemma flushFold_spec (file : FileId) :
    ∀ (l : List Nat) (s : BufState) (evs : List IOEvent), l.Nodup →
      FlushFoldOut s l evs file (l.foldl (flushStep file) (s, evs)) := by
  intro l
  induction l with
  | nil =>
    intro s evs _
    exact ⟨rfl, rfl, rfl, rfl, fun _ _ => rfl, by simp, by simp,
      List.Sublist.refl _, by simp, by simp, fun _ hx => hx, fun _ he _ => he⟩
  | cons i rest ih =>
    intro s evs hnd
    have hirest : i ∉ rest := (List.nodup_cons.mp hnd).1
    have hndr : rest.Nodup := (List.nodup_cons.mp hnd).2
    rw [List.foldl_cons]
    by_cases hm : (s.desc i).file = some file
    · have hilen : i < s.bufDescTable.length := desc_lt_length_of_file hm
      rw [flushStep_eq_match hm]
      set sC := ({ s with hashTable := hremove s.hashTable file (s.desc i).pageNo }).setDesc
        i clearedDesc with hsC
      set evs1 := if (s.desc i).dirty then evs ++ [IOEvent.writeP file (s.pool i)] else evs
        with hevs1
      have hCdesc_i : sC.desc i = clearedDesc := desc_setDesc_self _ (by simpa using hilen)
      have hCdesc : ∀ j, j ≠ i → sC.desc j = s.desc j := by
        intro j hj
        exact desc_setDesc_ne _ j hj
      have hCpool : sC.bufPool = s.bufPool := rfl
      have hChash : sC.hashTable = hremove s.hashTable file (s.desc i).pageNo := rfl
      have FO := ih sC evs1 hndr
      refine ⟨?_, ?_, ?_, ?_, ?_, ?_, ?_, ?_, ?_, ?_, ?_, ?_⟩
      · rw [FO.numBufs]; rfl
      · rw [FO.clock]; rfl
      · rw [FO.pool]; exact hCpool
      · rw [FO.len]
        simp [hsC, BufState.setDesc]
      · intro j hj
        have hj1 : j ∉ rest := fun hc => hj (List.mem_cons_of_mem _ hc)
        have hj2 : j ≠ i := fun hc => hj (hc ▸ List.mem_cons_self _ _)
        rw [FO.untouched j hj1, hCdesc j hj2]
      · intro i' hi' hm'
        rcases List.mem_cons.mp hi' with rfl | hi''
        · rw [FO.untouched i' hirest, hCdesc_i]
        · have hne : i' ≠ i := fun hc => hirest (hc ▸ hi'')
          exact FO.clearedAt i' hi'' (by rw [hCdesc i' hne]; exact hm')
      · intro i' hi' hm'
        rcases List.mem_cons.mp hi' with rfl | hi''
        · exact absurd hm hm'
        · have hne : i' ≠ i := fun hc => hirest (hc ▸ hi'')
          rw [FO.skipped i' hi'' (by rw [hCdesc i' hne]; exact hm'), hCdesc i' hne]
      · exact FO.sub.trans (by rw [hChash]; exact hremove_sublist _ _ _)
      · intro i' hi' hm' e he
        rcases List.mem_cons.mp hi' with rfl | hi''
        · have hmem : e ∈ sC.hashTable := FO.sub.subset he
          rw [hChash] at hmem
          exact (mem_hremove hmem).2
        · have hne : i' ≠ i := fun hc => hirest (hc ▸ hi'')
          have := FO.removed i' hi'' (by rw [hCdesc i' hne]; exact hm') e he
          rwa [hCdesc i' hne] at this
      · intro i' hi' hm' hd'
        rcases List.mem_cons.mp hi' with rfl | hi''
        · refine FO.evsMono _ ?_
          rw [hevs1, if_pos hd']
          simp
        · have hne : i' ≠ i := fun hc => hirest (hc ▸ hi'')
          have := FO.written i' hi'' (by rw [hCdesc i' hne]; exact hm')
            (by rw [hCdesc i' hne]; exact hd')
          rwa [pool_eq_of_bufPool hCpool i'] at this
      · intro x hx
        refine FO.evsMono _ ?_
        rw [hevs1]
        by_cases hd' : (s.desc i).dirty = true
        · rw [if_pos hd']; exact List.mem_append_left _ hx
        · have : (s.desc i).dirty = false := by revert hd'; cases (s.desc i).dirty <;> simp
          rw [this]; simpa using hx
      · intro e he hne
        refine FO.kept e ?_ hne
        rw [hChash]
        refine mem_hremove_of_ne he ?_
        intro hkey
        apply hne
        rw [hkey]
    · rw [flushStep_eq_skip hm]
      have FO := ih s evs hndr
      refine ⟨FO.numBufs, FO.clock, FO.pool, FO.len, ?_, ?_, ?_, FO.sub, ?_, ?_, FO.evsMono,
        FO.kept⟩
      · intro j hj
        exact FO.untouched j (fun hc => hj (List.mem_cons_of_mem _ hc))
      · intro i' hi' hm'
        rcases List.mem_cons.mp hi' with rfl | hi''
        · exact absurd hm' hm
        · exact FO.clearedAt i' hi'' hm'
      · intro i' hi' hm'
        rcases List.mem_cons.mp hi' with rfl | hi''
        · exact FO.untouched i' hirest
        · exact FO.skipped i' hi'' hm'
      · intro i' hi' hm'
        rcases List.mem_cons.mp hi' with rfl | hi''
        · exact absurd hm' hm
        · exact FO.removed i' hi'' hm'
      · intro i' hi' hm' hd'
        rcases List.mem_cons.mp hi' with rfl | hi''
        · exact absurd hm' hm
        · exact FO.written i' hi'' hm' hd'

/-! Claim C4: a successful `flushFile` writes back and de-resides the file. -/

/-- Claim C4: when `flushFile(file)` returns without error, every frame of the
file that was resident and dirty before the call has had its page slot written
through `file->writePage`, and afterwards no page of the file remains
resident: no frame-index entry for the file is left and every frame that held
a page of the file is invalid. -/
theorem c4_flushFile_success_durable (st : BufState) (file : FileId) (hInv : Inv st)
    (hok : (flushFile st file).1 = .ok ()) :
    (∀ i, i < st.numBufs → (st.desc i).file = some file → (st.desc i).dirty = true →
       IOEvent.writeP file (st.pool i) ∈ (flushFile st file).2.2) ∧
    (∀ e ∈ (flushFile st file).2.1.hashTable, ¬ e.1.1 = file) ∧
    (∀ i, i < st.numBufs → (st.desc i).file = some file →
       ((flushFile st file).2.1.desc i).valid = false) := by
  rcases hch : flushCheck st file (List.range st.numBufs) with _ | e
  · have hout : flushFile st file =
        (.ok (), ((List.range st.numBufs).foldl (flushStep file) (st, [])).1,
          ((List.range st.numBufs).foldl (flushStep file) (st, [])).2) := by
      simp [flushFile, hch]
    have FO := flushFold_spec file (List.range st.numBufs) st [] (List.nodup_range _)
    rw [hout]
    refine ⟨?_, ?_, ?_⟩
    · intro i hi hm hd
      exact FO.written i (List.mem_range.mpr hi) hm hd
    · intro e he hef
      have hmem : e ∈ st.hashTable := FO.sub.subset he
      obtain ⟨-, -, -, -, hentry, -, -, -⟩ := hInv
      obtain ⟨hlt, hval, hfile, hpage⟩ := hentry e hmem
      have hm : (st.desc e.2).file = some file := by rw [hfile, hef]
      have := FO.removed e.2 (List.mem_range.mpr hlt) hm e he
      apply this
      rw [hpage, ← hef]
    · intro i hi hm
      rw [FO.clearedAt i (List.mem_range.mpr hi) hm]
      rfl
  · exfalso
    rw [flushFile] at hok
    rw [hch] at hok
    simp at hok

/-- Witness for claim C4: flushing a concrete state holding one dirty unpinned
page of file 2 writes that page back, and nothing of file 2 stays resident. -/
theorem c4_flushFile_success_durable_witness :
    IOEvent.writeP 2 ⟨5, 7⟩ ∈
      (flushFile ⟨1, [⟨some 2, 5, 0, true, false, true⟩], [⟨5, 7⟩], [((2, 5), 0)], 0⟩ 2).2.2 ∧
    ((flushFile ⟨1, [⟨some 2, 5, 0, true, false, true⟩], [⟨5, 7⟩], [((2, 5), 0)], 0⟩ 2).2.1.desc
      0).valid = false := by
  have h := c4_flushFile_success_durable
    ⟨1, [⟨some 2, 5, 0, true, false, true⟩], [⟨5, 7⟩], [((2, 5), 0)], 0⟩ 2
    (by decide) rfl
  exact ⟨h.1 0 (by decide) (by decide) (by decide), h.2.2 0 (by decide) (by decide)⟩

/-! The clock sweep, characterised as a first-match search in clock order. -/

/-- Modelled from the spec: §4.2 — whether the sweep may stop at its `k`-th
step (0-indexed, the hand having advanced before deciding). The frame there
is selectable when it is invalid, or when its pin count is zero and its
reference bit is clear — where on a second visit (`numBufs ≤ k`) the bit has
already been cleared by the sweep's own first pass. -/
def okC (st : BufState) (k : Nat) : Bool :=
  let d := st.desc ((st.clockHand + 1 + k) % st.numBufs)
  (!d.valid) || (d.pinCnt == 0 && ((!d.refbit) || decide (st.numBufs ≤ k)))

/-- Modelled from the spec: §4.2 — the step, within the two passes of the
sweep, at which the first frame in clock order satisfying the selection rules
is encountered; `none` when every frame stays pinned through both passes. -/
def clockVictim (st : BufState) : Option Nat :=
  (List.range (2 * st.numBufs)).find? (okC st)

/-- Whether frame `i` is among the first `m` slots the sweep visits. -/
def visitedB (st : BufState) (m i : Nat) : Bool :=
  (List.range m).any (fun j => (st.clockHand + 1 + j) % st.numBufs == i)

/-- Steps the hand must still take (having already advanced `c` away from the
start `flag`) until it returns to `flag`, minus one. -/
def distTo (n flag c : Nat) : Nat :=
  if c < flag then flag - c - 1 else flag + n - c - 1

/-- How many loop iterations remain before `pass` reaches 2 and the sweep
gives up, as a function of the current hand and pass count. -/
def remSteps (n flag c pass : Nat) : Nat :=
  if 2 ≤ pass then 0 else distTo n flag c + 1 + (1 - pass) * n

/-- State shape after a sweep that exhausted both passes: only reference bits
of the visited frames are cleared, and the hand has moved `rem` slots. -/
def loopPostErr (st : BufState) (rem : Nat) (st' : BufState) : Prop :=
  st'.numBufs = st.numBufs ∧ st'.bufPool = st.bufPool ∧ st'.hashTable = st.hashTable ∧
  st'.bufDescTable.length = st.bufDescTable.length ∧
  st'.clockHand = (st.clockHand + rem) % st.numBufs ∧
  ∀ i, st'.desc i = if visitedB st rem i then refbitOff (st.desc i) else st.desc i

/-- State shape after a sweep that selected the frame at step `k`: earlier
visited frames lost their reference bits, the selected frame is cleared when
it was a valid victim (and untouched when it was simply invalid), its key is
removed from the index exactly in the eviction case, and the hand rests on
the selected frame. -/
def loopPostOk (st : BufState) (k : Nat) (st' : BufState) : Prop :=
  st'.numBufs = st.numBufs ∧ st'.bufPool = st.bufPool ∧
  st'.bufDescTable.length = st.bufDescTable.length ∧
  st'.clockHand = (st.clockHand + 1 + k) % st.numBufs ∧
  st'.hashTable = (if (st.desc ((st.clockHand + 1 + k) % st.numBufs)).valid then
      hremove st.hashTable ((st.desc ((st.clockHand + 1 + k) % st.numBufs)).file.getD 0)
        (st.desc ((st.clockHand + 1 + k) % st.numBufs)).pageNo
    else st.hashTable) ∧
  ∀ i, st'.desc i =
    if i = (st.clockHand + 1 + k) % st.numBufs then
      (if (st.desc i).valid then clearedDesc else st.desc i)
    else if visitedB st k i then refbitOff (st.desc i) else st.desc i

/-- Full functional characterisation of a sweep that must stop within `rem`
steps: its outcome is governed by the first step at which `okC` holds. -/
def loopPost (st : BufState) (rem : Nat)
    (out : Except BufError FrameId × BufState × List IOEvent) : Prop :=
  match (List.range rem).find? (okC st) with
  | none => out.1 = .error .bufferExceeded ∧ out.2.2 = [] ∧ loopPostErr st rem out.2.1
  | some k =>
    out.1 = .ok ((st.clockHand + 1 + k) % st.numBufs) ∧
    out.2.2 = (if (st.desc ((st.clockHand + 1 + k) % st.numBufs)).valid &&
        (st.desc ((st.clockHand + 1 + k) % st.numBufs)).dirty then
        [IOEvent.writeP ((st.desc ((st.clockHand + 1 + k) % st.numBufs)).file.getD 0)
          (st.pool ((st.clockHand + 1 + k) % st.numBufs))]
      else []) ∧
    loopPostOk st k out.2.1

lemma loopPost_none_iff {st : BufState} {rem : Nat}
    {out : Except BufError FrameId × BufState × List IOEvent}
    (h : (List.range rem).find? (okC st) = none) :
    loopPost st rem out ↔
      (out.1 = .error .bufferExceeded ∧ out.2.2 = [] ∧ loopPostErr st rem out.2.1) := by
  unfold loopPost
  rw [h]

lemma loopPost_some_iff {st : BufState} {rem k : Nat}
    {out : Except BufError FrameId × BufState × List IOEvent}
    (h : (List.range rem).find? (okC st) = some k) :
    loopPost st rem out ↔
      (out.1 = .ok ((st.clockHand + 1 + k) % st.numBufs) ∧
       out.2.2 = (if (st.desc ((st.clockHand + 1 + k) % st.numBufs)).valid &&
           (st.desc ((st.clockHand + 1 + k) % st.numBufs)).dirty then
           [IOEvent.writeP ((st.desc ((st.clockHand + 1 + k) % st.numBufs)).file.getD 0)
             (st.pool ((st.clockHand + 1 + k) % st.numBufs))]
         else []) ∧
       loopPostOk st k out.2.1) := by
  unfold loopPost
  rw [h]

/-! List and arithmetic helpers for the sweep proof. -/

lemma list_find?_map {α β : Type} (f : α → β) (p : β → Bool) :
    ∀ l : List α, (l.map f).find? p = (l.find? (fun a => p (f a))).map f := by
  intro l
  induction l with
  | nil => rfl
  | cons a l ih =>
    cases hp : p (f a)
    · simp [List.find?, hp, ih]
    · simp [List.find?, hp]

lemma list_find?_congr {α : Type} {p q : α → Bool} :
    ∀ l : List α, (∀ a ∈ l, p a = q a) → l.find? p = l.find? q := by
  intro l
  induction l with
  | nil => intro _; rfl
  | cons a l ih =>
    intro h
    have ha := h a (by simp)
    have hrest := ih (fun b hb => h b (by simp [hb]))
    cases hp : p a
    · have hq : q a = false := by rw [← ha, hp]
      simp [List.find?, hp, hq, hrest]
    · have hq : q a = true := by rw [← ha, hp]
      simp [List.find?, hp, hq]

lemma find?_range_succ (p : Nat → Bool) (m : Nat) :
    (List.range (m + 1)).find? p =
      if p 0 then some 0 else ((List.range m).find? (fun j => p (j + 1))).map Nat.succ := by
  rw [List.range_succ_eq_map]
  cases hp : p 0
  · simp [List.find?, hp, list_find?_map]
    rfl
  · simp [List.find?, hp]

lemma list_any_map {α β : Type} (f : α → β) (p : β → Bool) :
    ∀ l : List α, (l.map f).any p = l.any (fun a => p (f a)) := by
  intro l
  induction l with
  | nil => rfl
  | cons a l ih => simp [ih]

lemma list_any_congr {α : Type} {p q : α → Bool} :
    ∀ l : List α, (∀ a ∈ l, p a = q a) → l.any p = l.any q := by
  intro l
  induction l with
  | nil => intro _; rfl
  | cons a l ih =>
    intro h
    have ha := h a (by simp)
    simp only [List.any_cons, ha]
    rw [ih (fun b hb => h b (by simp [hb]))]

lemma any_range_succ (p : Nat → Bool) (m : Nat) :
    (List.range (m + 1)).any p = (p 0 || (List.range m).any (fun j => p (j + 1))) := by
  rw [List.range_succ_eq_map]
  simp [list_any_map]
  rfl

lemma clock_shift (c k n : Nat) : ((c + 1) % n + 1 + k) % n = (c + 1 + (k + 1)) % n := by
  rw [Nat.add_assoc, Nat.mod_add_mod]
  congr 1
  omega

lemma clock_shift' (c m n : Nat) : ((c + 1) % n + m) % n = (c + (m + 1)) % n := by
  rw [Nat.mod_add_mod]
  congr 1
  omega

lemma refbitOff_of_false {d : BufDesc} (h : d.refbit = false) : refbitOff d = d := by
  cases d
  simp only at h
  subst h
  rfl

lemma refbitOff_idem (d : BufDesc) : refbitOff (refbitOff d) = refbitOff d := rfl

lemma remSteps_succ {n flag c pass : Nat} (hn : 0 < n) (hc : c < n) (hf : flag < n)
    (hp : pass < 2) :
    remSteps n flag ((c + 1) % n) (if (c + 1) % n = flag then pass + 1 else pass) + 1 =
      remSteps n flag c pass := by
  have hc1 : (c + 1) % n = if c + 1 = n then 0 else c + 1 := by
    by_cases h : c + 1 = n
    · rw [if_pos h, h, Nat.mod_self]
    · rw [if_neg h, Nat.mod_eq_of_lt (by omega)]
  rw [hc1]
  interval_cases pass
  · by_cases h : c + 1 = n
    · rw [if_pos h]
      unfold remSteps distTo
      split_ifs <;> omega
    · rw [if_neg h]
      unfold remSteps distTo
      split_ifs <;> omega
  · by_cases h : c + 1 = n
    · rw [if_pos h]
      unfold remSteps distTo
      split_ifs <;> omega
    · rw [if_neg h]
      unfold remSteps distTo
      split_ifs <;> omega

lemma remSteps_pos {n flag c pass : Nat} (hp : pass < 2) :
    0 < remSteps n flag c pass := by
  unfold remSteps
  interval_cases pass <;> simp

lemma remSteps_le_two_mul {n flag c pass : Nat} (hc : c < n) (hf : flag < n) :
    remSteps n flag c pass ≤ 2 * n := by
  unfold remSteps distTo
  split_ifs <;> first | omega | (interval_cases pass <;> omega)

lemma okC_shift {st st2 : BufState}
    (hn : 0 < st.numBufs) (hnb : st2.numBufs = st.numBufs)
    (hch : st2.clockHand = (st.clockHand + 1) % st.numBufs)
    (hdesc : ∀ p, p ≠ (st.clockHand + 1) % st.numBufs → st2.desc p = st.desc p)
    (hq0 : st2.desc ((st.clockHand + 1) % st.numBufs) =
      refbitOff (st.desc ((st.clockHand + 1) % st.numBufs)))
    (j : Nat) (hj : j + 1 < 2 * st.numBufs) :
    okC st (j + 1) = okC st2 j := by
  unfold okC
  rw [hnb, hch, clock_shift]
  by_cases hpq : (st.clockHand + 1 + (j + 1)) % st.numBufs = (st.clockHand + 1) % st.numBufs
  · have hme : (st.clockHand + 1) + (j + 1) ≡ (st.clockHand + 1) + 0 [MOD st.numBufs] := by
      show ((st.clockHand + 1) + (j + 1)) % st.numBufs = ((st.clockHand + 1) + 0) % st.numBufs
      simpa using hpq
    have h0 : (j + 1) % st.numBufs = 0 := by
      simpa using Nat.ModEq.add_left_cancel' (st.clockHand + 1) hme
    have hjn : j + 1 = st.numBufs := by
      by_cases hlt : j + 1 < st.numBufs
      · rw [Nat.mod_eq_of_lt hlt] at h0
        omega
      · rw [Nat.mod_eq_sub_mod (Nat.le_of_not_lt hlt)] at h0
        rw [Nat.mod_eq_of_lt (by omega)] at h0
        omega
    rw [hpq, hq0, hjn]
    have h1 : decide (st.numBufs ≤ st.numBufs) = true := by simp
    have h2 : ((refbitOff (st.desc ((st.clockHand + 1) % st.numBufs))).refbit = false) := rfl
    simp [refbitOff]
  · have hjn : j + 1 ≠ st.numBufs := by
      intro h
      apply hpq
      rw [h, Nat.add_mod_right]
    rw [hdesc _ hpq]
    have hdec : decide (st.numBufs ≤ j + 1) = decide (st.numBufs ≤ j) :=
      decide_eq_decide.mpr (by omega)
    rw [hdec]

lemma visitedB_shift {st st2 : BufState}
    (hnb : st2.numBufs = st.numBufs)
    (hch : st2.clockHand = (st.clockHand + 1) % st.numBufs) (m i : Nat) :
    visitedB st (m + 1) i =
      (((st.clockHand + 1) % st.numBufs == i) || visitedB st2 m i) := by
  unfold visitedB
  rw [any_range_succ, hnb, hch]
  have h1 : ((st.clockHand + 1 + 0) % st.numBufs == i) =
      ((st.clockHand + 1) % st.numBufs == i) := by norm_num
  rw [h1]
  congr 1
  apply list_any_congr
  intro j _
  rw [clock_shift]

lemma visitedB_zero (st : BufState) (i : Nat) : visitedB st 0 i = false := rfl

/-- Transporting the sweep characterisation through one non-selecting
iteration: if the frame just examined was valid and kept (its reference bit at
most cleared), the recursive outcome characterised against the advanced state
also characterises the outcome against the original state, one step earlier. -/
lemma loopPost_transport {st : BufState} (st2 : BufState) {rem1 : Nat}
    {out : Except BufError FrameId × BufState × List IOEvent}
    (hn : 0 < st.numBufs)
    (hnb : st2.numBufs = st.numBufs)
    (hch : st2.clockHand = (st.clockHand + 1) % st.numBufs)
    (hpool : st2.bufPool = st.bufPool)
    (hhash : st2.hashTable = st.hashTable)
    (hlen : st2.bufDescTable.length = st.bufDescTable.length)
    (hdesc : ∀ p, p ≠ (st.clockHand + 1) % st.numBufs → st2.desc p = st.desc p)
    (hq0 : st2.desc ((st.clockHand + 1) % st.numBufs) =
      refbitOff (st.desc ((st.clockHand + 1) % st.numBufs)))
    (hval0 : (st.desc ((st.clockHand + 1) % st.numBufs)).valid = true)
    (hok0 : okC st 0 = false)
    (hb : rem1 + 1 ≤ 2 * st.numBufs)
    (POST : loopPost st2 rem1 out) :
    loopPost st (rem1 + 1) out := by
  have hshift : ∀ j ∈ List.range rem1, okC st (j + 1) = okC st2 j := by
    intro j hj
    exact okC_shift hn hnb hch hdesc hq0 j (by have := List.mem_range.mp hj; omega)
  have hfind : (List.range (rem1 + 1)).find? (okC st) =
      ((List.range rem1).find? (okC st2)).map Nat.succ := by
    rw [find?_range_succ, hok0]
    rw [if_neg Bool.false_ne_true]
    congr 1
    exact list_find?_congr _ hshift
  have hvis : ∀ m i, visitedB st (m + 1) i =
      (((st.clockHand + 1) % st.numBufs == i) || visitedB st2 m i) :=
    visitedB_shift hnb hch
  rcases hfind2 : (List.range rem1).find? (okC st2) with _ | k
  · rw [hfind2] at hfind
    simp only [Option.map_none'] at hfind
    obtain ⟨h1, h2, PErr⟩ := (loopPost_none_iff hfind2).mp POST
    rw [loopPost_none_iff hfind]
    refine ⟨h1, h2, PErr.1.trans hnb, PErr.2.1.trans hpool, PErr.2.2.1.trans hhash,
      PErr.2.2.2.1.trans hlen, ?_, ?_⟩
    · rw [PErr.2.2.2.2.1, hch, hnb, clock_shift']
    · intro i
      rw [PErr.2.2.2.2.2 i, hvis]
      by_cases hi : i = (st.clockHand + 1) % st.numBufs
      · rw [hi]
        cases hv : visitedB st2 rem1 ((st.clockHand + 1) % st.numBufs) <;>
          simp [hv, hq0, refbitOff_idem]
      · have hbeq : ((st.clockHand + 1) % st.numBufs == i) = false := by
          simp [Ne.symm hi]
        rw [hbeq, hdesc i hi]
        simp
  · rw [hfind2] at hfind
    simp only [Option.map_some'] at hfind
    obtain ⟨h1, h2, POk⟩ := (loopPost_some_iff hfind2).mp POST
    rw [loopPost_some_iff hfind]
    have hqq : (st2.clockHand + 1 + k) % st2.numBufs =
        (st.clockHand + 1 + (k + 1)) % st.numBufs := by
      rw [hnb, hch, clock_shift]
    have hsucc : (st.clockHand + 1 + Nat.succ k) % st.numBufs =
        (st.clockHand + 1 + (k + 1)) % st.numBufs := rfl
    have hag : ((st.clockHand + 1 + (k + 1)) % st.numBufs = (st.clockHand + 1) % st.numBufs ∧
          st2.desc ((st.clockHand + 1 + (k + 1)) % st.numBufs) =
            refbitOff (st.desc ((st.clockHand + 1 + (k + 1)) % st.numBufs))) ∨
        st2.desc ((st.clockHand + 1 + (k + 1)) % st.numBufs) =
          st.desc ((st.clockHand + 1 + (k + 1)) % st.numBufs) := by
      by_cases h : (st.clockHand + 1 + (k + 1)) % st.numBufs = (st.clockHand + 1) % st.numBufs
      · exact Or.inl ⟨h, by rw [h]; exact hq0⟩
      · exact Or.inr (hdesc _ h)
    have hproj : (st2.desc ((st.clockHand + 1 + (k + 1)) % st.numBufs)).valid =
          (st.desc ((st.clockHand + 1 + (k + 1)) % st.numBufs)).valid ∧
        (st2.desc ((st.clockHand + 1 + (k + 1)) % st.numBufs)).dirty =
          (st.desc ((st.clockHand + 1 + (k + 1)) % st.numBufs)).dirty ∧
        (st2.desc ((st.clockHand + 1 + (k + 1)) % st.numBufs)).file =
          (st.desc ((st.clockHand + 1 + (k + 1)) % st.numBufs)).file ∧
        (st2.desc ((st.clockHand + 1 + (k + 1)) % st.numBufs)).pageNo =
          (st.desc ((st.clockHand + 1 + (k + 1)) % st.numBufs)).pageNo := by
      rcases hag with ⟨-, h⟩ | h <;> rw [h] <;> exact ⟨rfl, rfl, rfl, rfl⟩
    refine ⟨?_, ?_, ?_⟩
    · rw [h1, hqq, hsucc]
    · rw [h2, hqq, hsucc, hproj.1, hproj.2.1, hproj.2.2.1, pool_eq_of_bufPool hpool]
    · obtain ⟨o1, o2, o3, o4, o5, o6⟩ := POk
      rw [hqq] at o4 o5
      refine ⟨o1.trans hnb, o2.trans hpool, o3.trans hlen, ?_, ?_, ?_⟩
      · rw [o4, hsucc]
      · rw [o5, hsucc, hproj.1, hproj.2.2.1, hproj.2.2.2, hhash]
      · intro i
        rw [hsucc]
        have o6' := o6 i
        rw [hqq] at o6'
        rw [o6']
        by_cases hiq : i = (st.clockHand + 1 + (k + 1)) % st.numBufs
        · rw [if_pos hiq, if_pos hiq, hiq, hproj.1]
          cases hv : (st.desc ((st.clockHand + 1 + (k + 1)) % st.numBufs)).valid
          · simp only [Bool.false_eq_true, if_false]
            rcases hag with ⟨he, -⟩ | h
            · rw [he, hval0] at hv
              simp at hv
            · exact h
          · simp
        · rw [if_neg hiq, if_neg hiq, hvis]
          by_cases hi0 : i = (st.clockHand + 1) % st.numBufs
          · rw [hi0]
            cases hv : visitedB st2 k ((st.clockHand + 1) % st.numBufs) <;>
              simp [hv, hq0, refbitOff_idem]
          · have hbeq : ((st.clockHand + 1) % st.numBufs == i) = false := by
              simp [Ne.symm hi0]
            rw [hbeq, hdesc i hi0]
            simp

/-- The clock sweep computes exactly the first-match search that `loopPost`
describes, from any pass count and hand position the loop can be in. -/
theorem allocBufLoop_spec :
    ∀ (fuel : Nat) (st : BufState) (flag pass : Nat),
      0 < st.numBufs → st.clockHand < st.numBufs → flag < st.numBufs → pass ≤ 2 →
      remSteps st.numBufs flag st.clockHand pass ≤ fuel →
      loopPost st (remSteps st.numBufs flag st.clockHand pass)
        (allocBufLoop st flag pass fuel) := by
  intro fuel
  induction fuel with
  | zero =>
    intro st flag pass hn hc hf hp hfuel
    have hrem : remSteps st.numBufs flag st.clockHand pass = 0 := by omega
    rw [hrem]
    rw [show allocBufLoop st flag pass 0 = (.error .bufferExceeded, st, []) from rfl]
    have hfind0 : (List.range 0).find? (okC st) = none := rfl
    rw [loopPost_none_iff hfind0]
    exact ⟨rfl, rfl, rfl, rfl, rfl, rfl,
      by rw [Nat.add_zero, Nat.mod_eq_of_lt hc], fun i => rfl⟩
  | succ fuel ih =>
    intro st flag pass hn hc hf hp hfuel
    by_cases hp2 : 2 ≤ pass
    · have hrem : remSteps st.numBufs flag st.clockHand pass = 0 := by
        unfold remSteps
        rw [if_pos hp2]
      rw [hrem]
      have hout : allocBufLoop st flag pass (fuel + 1) = (.error .bufferExceeded, st, []) := by
        simp only [allocBufLoop]
        rw [if_pos hp2]
      have hfind0 : (List.range 0).find? (okC st) = none := rfl
      rw [hout, loopPost_none_iff hfind0]
      exact ⟨rfl, rfl, rfl, rfl, rfl, rfl,
        by rw [Nat.add_zero, Nat.mod_eq_of_lt hc], fun i => rfl⟩
    · have hplt : pass < 2 := Nat.lt_of_not_le hp2
      have hadv1 : (advanceClock st).clockHand = (st.clockHand + 1) % st.numBufs := rfl
      have hadv2 : ∀ i, (advanceClock st).desc i = st.desc i := fun _ => rfl
      have hadv4 : ∀ i, (advanceClock st).pool i = st.pool i := fun _ => rfl
      have hadv5 : (advanceClock st).hashTable = st.hashTable := rfl
      have hpass1 : (if (st.clockHand + 1) % st.numBufs = flag then pass + 1 else pass) ≤ 2 := by
        split_ifs <;> omega
      have hrem1 := @remSteps_succ st.numBufs flag st.clockHand pass hn hc hf hplt
      have hbound := @remSteps_le_two_mul st.numBufs flag st.clockHand pass hc hf
      simp only [allocBufLoop]
      rw [if_neg hp2]
      simp only [hadv1, hadv2, hadv4, hadv5]
      by_cases hval : (st.desc ((st.clockHand + 1) % st.numBufs)).valid = false
      · rw [if_pos hval]
        have hok0 : okC st 0 = true := by
          unfold okC
          rw [Nat.add_zero]
          simp [hval]
        obtain ⟨r', hrem⟩ : ∃ r', remSteps st.numBufs flag st.clockHand pass = r' + 1 := by
          have := @remSteps_pos st.numBufs flag st.clockHand pass hplt
          exact ⟨remSteps st.numBufs flag st.clockHand pass - 1, by omega⟩
        rw [hrem]
        have hfind : (List.range (r' + 1)).find? (okC st) = some 0 := by
          rw [find?_range_succ, hok0]
          simp
        rw [loopPost_some_iff hfind]
        have hpos0 : (st.clockHand + 1 + 0) % st.numBufs = (st.clockHand + 1) % st.numBufs := by
          norm_num
        rw [hpos0]
        refine ⟨rfl, by simp [hval], rfl, rfl, rfl, rfl, ?_, ?_⟩
        · rw [hadv5]
          simp [hval]
        · intro i
          rw [hadv2 i]
          by_cases hi : i = (st.clockHand + 1) % st.numBufs
          · rw [if_pos hi, hi]
            simp [hval]
          · rw [if_neg hi]
            simp [visitedB_zero]
      · have hvalT : (st.desc ((st.clockHand + 1) % st.numBufs)).valid = true := by
          revert hval
          cases (st.desc ((st.clockHand + 1) % st.numBufs)).valid <;> simp
        rw [if_neg hval]
        have hq0len : (st.clockHand + 1) % st.numBufs < st.bufDescTable.length :=
          desc_lt_length_of_valid hvalT
        by_cases href : (st.desc ((st.clockHand + 1) % st.numBufs)).refbit = true
        · -- second chance: clear the reference bit and continue
          rw [if_pos href]
          have hs5 : ((advanceClock st).setRefbitTo ((st.clockHand + 1) % st.numBufs)
              false).bufDescTable.length = st.bufDescTable.length := by
            simp [BufState.setRefbitTo, BufState.setDesc, advanceClock]
          have hs6 : ∀ p, p ≠ (st.clockHand + 1) % st.numBufs →
              ((advanceClock st).setRefbitTo ((st.clockHand + 1) % st.numBufs) false).desc p =
                st.desc p := by
            intro p hp
            unfold BufState.setRefbitTo
            rw [desc_setDesc_ne _ p hp]
            exact hadv2 p
          have hs7 : ((advanceClock st).setRefbitTo ((st.clockHand + 1) % st.numBufs)
                false).desc ((st.clockHand + 1) % st.numBufs) =
              refbitOff (st.desc ((st.clockHand + 1) % st.numBufs)) := by
            unfold BufState.setRefbitTo
            rw [desc_setDesc_self _ (show (st.clockHand + 1) % st.numBufs <
              (advanceClock st).bufDescTable.length from hq0len)]
            rw [hadv2 ((st.clockHand + 1) % st.numBufs)]
            rfl
          have hok0 : okC st 0 = false := by
            have hn0 : ¬ (st.numBufs ≤ 0) := by omega
            unfold okC
            rw [Nat.add_zero]
            simp [hvalT, href, hn0]
          have POST := ih ((advanceClock st).setRefbitTo ((st.clockHand + 1) % st.numBufs) false)
            flag (if (st.clockHand + 1) % st.numBufs = flag then pass + 1 else pass)
            hn (Nat.mod_lt _ hn) hf hpass1 (by
              show remSteps st.numBufs flag ((st.clockHand + 1) % st.numBufs)
                (if (st.clockHand + 1) % st.numBufs = flag then pass + 1 else pass) ≤ fuel
              omega)
          rw [← hrem1]
          exact loopPost_transport
            ((advanceClock st).setRefbitTo ((st.clockHand + 1) % st.numBufs) false)
            hn rfl rfl rfl rfl hs5 hs6 hs7 hvalT hok0 (by omega) POST
        · have hrefF : (st.desc ((st.clockHand + 1) % st.numBufs)).refbit = false := by
            revert href
            cases (st.desc ((st.clockHand + 1) % st.numBufs)).refbit <;> simp
          rw [if_neg href]
          by_cases hpin : 0 < (st.desc ((st.clockHand + 1) % st.numBufs)).pinCnt
          · -- pinned: skip and continue
            rw [if_pos hpin]
            have hs6 : ∀ p, p ≠ (st.clockHand + 1) % st.numBufs →
                (advanceClock st).desc p = st.desc p := fun p _ => hadv2 p
            have hs7 : (advanceClock st).desc ((st.clockHand + 1) % st.numBufs) =
                refbitOff (st.desc ((st.clockHand + 1) % st.numBufs)) := by
              rw [hadv2 ((st.clockHand + 1) % st.numBufs)]
              exact (refbitOff_of_false hrefF).symm
            have hbeq : ((st.desc ((st.clockHand + 1) % st.numBufs)).pinCnt == 0) = false := by
              simpa using (by omega : (st.desc ((st.clockHand + 1) % st.numBufs)).pinCnt ≠ 0)
            have hok0 : okC st 0 = false := by
              unfold okC
              rw [Nat.add_zero]
              simp [hvalT, hbeq]
            have POST := ih (advanceClock st)
              flag (if (st.clockHand + 1) % st.numBufs = flag then pass + 1 else pass)
              hn (Nat.mod_lt _ hn) hf hpass1 (by
                show remSteps st.numBufs flag ((st.clockHand + 1) % st.numBufs)
                  (if (st.clockHand + 1) % st.numBufs = flag then pass + 1 else pass) ≤ fuel
                omega)
            rw [← hrem1]
            exact loopPost_transport (advanceClock st)
              hn rfl rfl rfl rfl rfl hs6 hs7 hvalT hok0 (by omega) POST
          · -- the victim: write back if dirty, drop the key, clear the frame
            rw [if_neg hpin]
            have hpin0 : (st.desc ((st.clockHand + 1) % st.numBufs)).pinCnt = 0 := by omega
            have hok0 : okC st 0 = true := by
              unfold okC
              rw [Nat.add_zero]
              simp [hvalT, hrefF, hpin0]
            obtain ⟨r', hrem⟩ : ∃ r', remSteps st.numBufs flag st.clockHand pass = r' + 1 := by
              have := @remSteps_pos st.numBufs flag st.clockHand pass hplt
              exact ⟨remSteps st.numBufs flag st.clockHand pass - 1, by omega⟩
            rw [hrem]
            have hfind : (List.range (r' + 1)).find? (okC st) = some 0 := by
              rw [find?_range_succ, hok0]
              simp
            rw [loopPost_some_iff hfind]
            have hpos0 : (st.clockHand + 1 + 0) % st.numBufs =
                (st.clockHand + 1) % st.numBufs := by
              norm_num
            rw [hpos0]
            refine ⟨rfl, by simp [hvalT], rfl, rfl, ?_, rfl, ?_, ?_⟩
            · simp [BufState.setDesc, advanceClock]
            · simp [BufState.setDesc, hvalT]
            · intro i
              by_cases hi : i = (st.clockHand + 1) % st.numBufs
              · rw [if_pos hi, hi, hvalT]
                rw [if_pos rfl]
                exact desc_setDesc_self _ (by simpa using hq0len)
              · rw [if_neg hi]
                rw [desc_setDesc_ne _ i hi]
                simp [visitedB_zero, BufState.desc, advanceClock]

/-- The sweep as called by `allocBuf`: two full passes from the current hand. -/
theorem allocBuf_spec (st : BufState) (hn : 0 < st.numBufs)
    (hc : st.clockHand < st.numBufs) :
    loopPost st (2 * st.numBufs) (allocBuf st) := by
  have hrem : remSteps st.numBufs st.clockHand st.clockHand 0 = 2 * st.numBufs := by
    unfold remSteps distTo
    split_ifs <;> omega
  have h := allocBufLoop_spec (2 * st.numBufs + 2) st st.clockHand 0 hn hc hc
    (by omega) (by rw [hrem]; omega)
  rw [hrem] at h
  exact h

/-! Consequences of the sweep characterisation. -/

lemma bufState_ext {a b : BufState} (h1 : a.numBufs = b.numBufs)
    (h2 : a.bufDescTable = b.bufDescTable) (h3 : a.bufPool = b.bufPool)
    (h4 : a.hashTable = b.hashTable) (h5 : a.clockHand = b.clockHand) : a = b := by
  cases a
  cases b
  simp only at h1 h2 h3 h4 h5
  rw [h1, h2, h3, h4, h5]

lemma find?_range_min {p : Nat → Bool} :
    ∀ (m : Nat) (k : Nat), (List.range m).find? p = some k →
      p k = true ∧ ∀ j, j < k → p j = false := by
  intro m
  induction m generalizing p with
  | zero => intro k h; simp at h
  | succ m ih =>
    intro k h
    rw [find?_range_succ] at h
    by_cases hp : p 0 = true
    · rw [if_pos hp] at h
      have hk : k = 0 := by
        have := Option.some_inj.mp h
        omega
      subst hk
      exact ⟨hp, fun j hj => absurd hj (by omega)⟩
    · rw [if_neg hp] at h
      rcases hfind : (List.range m).find? (fun j => p (j + 1)) with _ | k'
      · rw [hfind] at h
        simp at h
      · rw [hfind] at h
        simp only [Option.map_some'] at h
        have hk : k = k' + 1 := by
          have := Option.some_inj.mp h
          omega
        subst hk
        obtain ⟨h1, h2⟩ := ih _ hfind
        refine ⟨h1, ?_⟩
        intro j hj
        cases j with
        | zero =>
          revert hp
          cases p 0 <;> simp
        | succ j' => exact h2 j' (by omega)

lemma hlookup_none_iff {ht : HashTbl} {f : FileId} {p : PageId} :
    hlookup ht f p = none ↔ ∀ e ∈ ht, ¬ e.1 = (f, p) := by
  unfold hlookup
  rw [Option.map_eq_none', List.find?_eq_none]
  constructor
  · intro h e he
    have := h e he
    simpa using this
  · intro h e he
    have := h e he
    simpa using this

lemma hlookup_some_mem {ht : HashTbl} {f : FileId} {p : PageId} {fr : FrameId}
    (h : hlookup ht f p = some fr) : ((f, p), fr) ∈ ht := by
  unfold hlookup at h
  obtain ⟨e, he, hev⟩ := Option.map_eq_some'.mp h
  have hmem := List.mem_of_find?_eq_some he
  have hkey : e.1 = (f, p) := by
    have := List.find?_some he
    simpa using this
  have : e = ((f, p), fr) := by
    cases e
    simp only at hkey hev
    rw [hkey, hev]
  rwa [this] at hmem

/-- Everything `allocBuf` guarantees when it hands back a frame. -/
lemma allocBuf_ok_facts {st : BufState} (hn : 0 < st.numBufs)
    (hc : st.clockHand < st.numBufs) {f : FrameId} {st1 : BufState} {evs : List IOEvent}
    (h : allocBuf st = (.ok f, st1, evs)) :
    f < st.numBufs ∧ (st1.desc f).valid = false ∧
    st1.bufDescTable.length = st.bufDescTable.length ∧
    st1.numBufs = st.numBufs ∧ st1.bufPool = st.bufPool ∧
    st1.clockHand = f ∧
    (∀ e ∈ st1.hashTable, e ∈ st.hashTable) ∧
    ((st.desc f).valid = true → (st.desc f).pinCnt = 0) ∧
    (∀ i, (st1.desc i).pinCnt = (st.desc i).pinCnt) ∧
    (∀ i, i ≠ f → (st1.desc i).file = (st.desc i).file ∧
      (st1.desc i).pageNo = (st.desc i).pageNo ∧ (st1.desc i).valid = (st.desc i).valid ∧
      (st1.desc i).dirty = (st.desc i).dirty) := by
  have L := allocBuf_spec st hn hc
  rcases hfind : (List.range (2 * st.numBufs)).find? (okC st) with _ | k
  · obtain ⟨h1, -, -⟩ := (loopPost_none_iff hfind).mp L
    rw [h] at h1
    simp at h1
  · obtain ⟨h1, h2, o1, o2, o3, o4, o5, o6⟩ := (loopPost_some_iff hfind).mp L
    rw [h] at h1 h2 o1 o2 o3 o4 o5 o6
    simp only at h1 h2 o1 o2 o3 o4 o5 o6
    have hfq : f = (st.clockHand + 1 + k) % st.numBufs := Except.ok.inj h1
    subst hfq
    have hok := (find?_range_min _ _ hfind).1
    have hvictim : (st.desc ((st.clockHand + 1 + k) % st.numBufs)).valid = true →
        (st.desc ((st.clockHand + 1 + k) % st.numBufs)).pinCnt = 0 := by
      intro hv
      simp only [okC] at hok
      rw [hv] at hok
      simp at hok
      exact hok.1
    refine ⟨Nat.mod_lt _ hn, ?_, o3, o1, o2, o4, ?_, hvictim, ?_, ?_⟩
    · have := o6 ((st.clockHand + 1 + k) % st.numBufs)
      rw [if_pos rfl] at this
      rw [this]
      cases hv : (st.desc ((st.clockHand + 1 + k) % st.numBufs)).valid
      · rw [if_neg (show ¬ (false = true) by simp)]
        exact hv
      · rw [if_pos rfl]
        rfl
    · intro e he
      rw [o5] at he
      by_cases hv : (st.desc ((st.clockHand + 1 + k) % st.numBufs)).valid = true
      · rw [if_pos hv] at he
        exact (mem_hremove he).1
      · rwa [if_neg hv] at he
    · intro i
      have := o6 i
      rw [this]
      by_cases hi : i = (st.clockHand + 1 + k) % st.numBufs
      · rw [if_pos hi]
        rw [hi]
        cases hv : (st.desc ((st.clockHand + 1 + k) % st.numBufs)).valid
        · rw [if_neg (show ¬ (false = true) by simp)]
        · rw [if_pos rfl]
          have := hvictim hv
          simp [clearedDesc, this]
      · rw [if_neg hi]
        by_cases hvb : visitedB st k i
        · rw [if_pos hvb]
          rfl
        · rw [if_neg hvb]
    · intro i hi
      have := o6 i
      rw [this, if_neg hi]
      by_cases hvb : visitedB st k i
      · rw [if_pos hvb]
        exact ⟨rfl, rfl, rfl, rfl⟩
      · rw [if_neg hvb]
        exact ⟨rfl, rfl, rfl, rfl⟩

/-- Everything `allocBuf` guarantees when it gives up with BufferExceeded. -/
lemma allocBuf_err_facts {st : BufState} (hn : 0 < st.numBufs)
    (hc : st.clockHand < st.numBufs) {e : BufError} {st1 : BufState} {evs : List IOEvent}
    (h : allocBuf st = (.error e, st1, evs)) :
    st1.bufPool = st.bufPool ∧ st1.hashTable = st.hashTable ∧
    st1.numBufs = st.numBufs ∧ st1.bufDescTable.length = st.bufDescTable.length ∧
    (∀ i, (st1.desc i).pinCnt = (st.desc i).pinCnt ∧
      (st1.desc i).file = (st.desc i).file ∧ (st1.desc i).pageNo = (st.desc i).pageNo ∧
      (st1.desc i).valid = (st.desc i).valid ∧ (st1.desc i).dirty = (st.desc i).dirty) := by
  have L := allocBuf_spec st hn hc
  rcases hfind : (List.range (2 * st.numBufs)).find? (okC st) with _ | k
  · obtain ⟨-, -, p1, p2, p3, p4, -, p6⟩ := (loopPost_none_iff hfind).mp L
    rw [h] at p1 p2 p3 p4 p6
    simp only at p1 p2 p3 p4 p6
    refine ⟨p2, p3, p1, p4, ?_⟩
    intro i
    rw [p6 i]
    by_cases hvb : visitedB st (2 * st.numBufs) i
    · rw [if_pos hvb]
      exact ⟨rfl, rfl, rfl, rfl, rfl⟩
    · rw [if_neg hvb]
      exact ⟨rfl, rfl, rfl, rfl, rfl⟩
  · obtain ⟨h1, -, -⟩ := (loopPost_some_iff hfind).mp L
    rw [h] at h1
    simp at h1

/-! Claim C7: the sweep is a deterministic first-match in clock order. -/

/-- Claim C7: `allocBuf` is deterministic for every fixed starting state — it
is a pure function of the state, whose value is governed by `clockVictim`:
the clock hand advances before each decision, and `allocBuf` returns the
first frame in clock order (starting at the slot after the current hand) that
is invalid, or — after second-chance reference-bit clearing — the first frame
with the reference bit false and pin count 0, evicting the latter (write-back
when dirty, frame-index removal, `Clear()`) before returning its index. -/
theorem c7_allocBuf_first_match (st : BufState) (hn : 0 < st.numBufs)
    (hc : st.clockHand < st.numBufs) :
    (clockVictim st = none → (allocBuf st).1 = .error .bufferExceeded) ∧
    (∀ k, clockVictim st = some k →
      okC st k = true ∧ (∀ j, j < k → okC st j = false) ∧
      (allocBuf st).1 = .ok ((st.clockHand + 1 + k) % st.numBufs) ∧
      (allocBuf st).2.1.clockHand = (st.clockHand + 1 + k) % st.numBufs ∧
      ((st.desc ((st.clockHand + 1 + k) % st.numBufs)).valid = true →
        (allocBuf st).2.1.desc ((st.clockHand + 1 + k) % st.numBufs) = clearedDesc ∧
        (allocBuf st).2.1.hashTable = hremove st.hashTable
          ((st.desc ((st.clockHand + 1 + k) % st.numBufs)).file.getD 0)
          (st.desc ((st.clockHand + 1 + k) % st.numBufs)).pageNo ∧
        (allocBuf st).2.2 =
          (if (st.desc ((st.clockHand + 1 + k) % st.numBufs)).dirty then
            [IOEvent.writeP ((st.desc ((st.clockHand + 1 + k) % st.numBufs)).file.getD 0)
              (st.pool ((st.clockHand + 1 + k) % st.numBufs))]
          else [])) ∧
      ((st.desc ((st.clockHand + 1 + k) % st.numBufs)).valid = false →
        (allocBuf st).2.1.desc ((st.clockHand + 1 + k) % st.numBufs) =
          st.desc ((st.clockHand + 1 + k) % st.numBufs) ∧
        (allocBuf st).2.1.hashTable = st.hashTable ∧
        (allocBuf st).2.2 = [])) := by
  have L := allocBuf_spec st hn hc
  constructor
  · intro hv
    have hfind : (List.range (2 * st.numBufs)).find? (okC st) = none := hv
    exact ((loopPost_none_iff hfind).mp L).1
  · intro k hv
    have hfind : (List.range (2 * st.numBufs)).find? (okC st) = some k := hv
    obtain ⟨h1, h2, o1, o2, o3, o4, o5, o6⟩ := (loopPost_some_iff hfind).mp L
    obtain ⟨hok, hmin⟩ := find?_range_min _ _ hfind
    have hdq := o6 ((st.clockHand + 1 + k) % st.numBufs)
    rw [if_pos rfl] at hdq
    refine ⟨hok, hmin, h1, o4, ?_, ?_⟩
    · intro hval
      rw [hval] at hdq o5
      rw [if_pos rfl] at hdq o5
      refine ⟨hdq, o5, ?_⟩
      rw [h2, hval]
      simp
    · intro hval
      rw [hval] at hdq o5
      rw [if_neg (by simp)] at hdq o5
      refine ⟨hdq, o5, ?_⟩
      rw [h2, hval]
      simp

/-- Witness for claim C7: on a one-frame pool holding an unpinned dirty page
with the reference bit clear, the sweep selects step 0, returns frame 0 with
the hand resting there, clears the descriptor, removes the key and writes the
page back. -/
theorem c7_allocBuf_first_match_witness :
    (allocBuf ⟨1, [⟨some 2, 5, 0, true, false, true⟩], [⟨5, 7⟩], [((2, 5), 0)], 0⟩).1 =
        .ok 0 ∧
      (allocBuf ⟨1, [⟨some 2, 5, 0, true, false, true⟩], [⟨5, 7⟩], [((2, 5), 0)], 0⟩).2.2 =
        [IOEvent.writeP 2 ⟨5, 7⟩] := by
  have h := (c7_allocBuf_first_match
    ⟨1, [⟨some 2, 5, 0, true, false, true⟩], [⟨5, 7⟩], [((2, 5), 0)], 0⟩
    (by decide) (by decide)).2 0 (by decide)
  refine ⟨h.2.2.1, ?_⟩
  have := (h.2.2.2.2.1 (by decide)).2.2
  rw [this]
  decide

/-! Claim C2: a fully pinned pool rejects new pages. -/

lemma clockVictim_none_of_all_pinned (st : BufState)
    (hall : ∀ i, i < st.numBufs →
      (st.desc i).valid = true ∧ 0 < (st.desc i).pinCnt) :
    clockVictim st = none := by
  unfold clockVictim
  rw [List.find?_eq_none]
  intro k hk
  have hk' := List.mem_range.mp hk
  have hn : 0 < st.numBufs := by omega
  have hpos : (st.clockHand + 1 + k) % st.numBufs < st.numBufs := Nat.mod_lt _ hn
  obtain ⟨hv, hp⟩ := hall _ hpos
  have hpne : (st.desc ((st.clockHand + 1 + k) % st.numBufs)).pinCnt ≠ 0 := by omega
  simp [okC, hv, hpne]

lemma exists_visit_offset {n c i : Nat} (hn : 0 < n) (hi : i < n) :
    ∃ j, j < n ∧ (c + 1 + j) % n = i := by
  have hrlt : (c + 1) % n < n := Nat.mod_lt _ hn
  by_cases hge : (c + 1) % n ≤ i
  · refine ⟨i - (c + 1) % n, by omega, ?_⟩
    rw [← Nat.mod_add_mod, Nat.add_sub_cancel' hge]
    exact Nat.mod_eq_of_lt hi
  · refine ⟨i + n - (c + 1) % n, by omega, ?_⟩
    rw [← Nat.mod_add_mod]
    have harith : (c + 1) % n + (i + n - (c + 1) % n) = i + n := by omega
    rw [harith, Nat.add_mod_right]
    exact Nat.mod_eq_of_lt hi

lemma visitedB_true_of_lt {st : BufState} (hn : 0 < st.numBufs) {i : Nat}
    (hi : i < st.numBufs) {m : Nat} (hm : st.numBufs ≤ m) :
    visitedB st m i = true := by
  obtain ⟨j, hj, hje⟩ := exists_visit_offset (n := st.numBufs) (c := st.clockHand) hn hi
  unfold visitedB
  rw [List.any_eq_true]
  refine ⟨j, List.mem_range.mpr (by omega), ?_⟩
  rw [hje]
  simp

lemma getD_eq_getElem' {α : Type} : ∀ (l : List α) (d : α) (i : Nat) (h : i < l.length),
    l.getD i d = l[i] := by
  intro l
  induction l with
  | nil => intro d i h; simp at h
  | cons a l ih =>
    intro d i h
    cases i with
    | zero => simp
    | succ j => simpa using ih d j (by simpa using h)

/-- Claim C2 (amended): with every frame valid and pinned, a `readPage` miss
or an `allocPage` call fails with BufferExceeded, and the manager state — pin
counts, residency, dirty bits and clock hand — is unchanged, except that the
sweep has cleared every frame's reference bit before giving up. -/
theorem c2_saturated_buffer_exceeded (fs : FileOracle) (st : BufState)
    (hlen : st.bufDescTable.length = st.numBufs)
    (hn : 0 < st.numBufs) (hc : st.clockHand < st.numBufs)
    (hall : ∀ i, i < st.numBufs →
      (st.desc i).valid = true ∧ 0 < (st.desc i).pinCnt)
    (file : FileId) (pageNo : PageId)
    (hmiss : hlookup st.hashTable file pageNo = none) :
    readPage fs st file pageNo =
      (.error .bufferExceeded,
        { st with bufDescTable := st.bufDescTable.map refbitOff }, []) ∧
    allocPage fs st file =
      (.error .bufferExceeded,
        { st with bufDescTable := st.bufDescTable.map refbitOff },
        [IOEvent.allocateP file]) := by
  have hvic := clockVictim_none_of_all_pinned st hall
  have hfind : (List.range (2 * st.numBufs)).find? (okC st) = none := hvic
  have L := allocBuf_spec st hn hc
  obtain ⟨h1, h2, p1, p2, p3, p4, p5, p6⟩ := (loopPost_none_iff hfind).mp L
  have hstate : (allocBuf st).2.1 =
      { st with bufDescTable := st.bufDescTable.map refbitOff } := by
    refine bufState_ext p1 ?_ p2 p3 ?_
    · apply List.ext_getElem
      · rw [p4, List.length_map]
      · intro i h1' h2'
        have hin : i < st.numBufs := by
          rw [p4, hlen] at h1'
          exact h1'
        have hvb : visitedB st (2 * st.numBufs) i = true :=
          visitedB_true_of_lt hn hin (by omega)
        have hd := p6 i
        rw [if_pos hvb] at hd
        have e1 : (allocBuf st).2.1.desc i = (allocBuf st).2.1.bufDescTable[i] :=
          getD_eq_getElem' _ _ _ h1'
        have e2 : st.desc i = st.bufDescTable[i] :=
          getD_eq_getElem' _ _ _ (by rw [hlen]; exact hin)
        rw [← e1, hd, e2, List.getElem_map]
    · rw [p5]
      have h2n : st.clockHand + 2 * st.numBufs =
          st.clockHand + st.numBufs + st.numBufs := by omega
      rw [h2n, Nat.add_mod_right, Nat.add_mod_right, Nat.mod_eq_of_lt hc]
  have hAB : allocBuf st =
      (.error .bufferExceeded,
        { st with bufDescTable := st.bufDescTable.map refbitOff }, []) := by
    have heta : allocBuf st = ((allocBuf st).1, (allocBuf st).2.1, (allocBuf st).2.2) := rfl
    rw [heta, h1, h2, hstate]
  constructor
  · simp [readPage, hmiss, hAB]
  · simp [allocPage, hAB]

/-- Counterexample for claim C2 as stated: on a fully pinned one-frame pool
whose frame has its reference bit set, a further miss is rejected with
BufferExceeded, but the manager state is NOT unchanged — the failing sweep
clears the frame's reference bit. -/
theorem c2_state_changed_counterexample :
    (∀ i, i < (1 : Nat) →
      ((⟨1, [⟨some 2, 5, 1, false, true, true⟩], [⟨5, 7⟩], [((2, 5), 0)], 0⟩ :
        BufState).desc i).valid = true ∧
      0 < ((⟨1, [⟨some 2, 5, 1, false, true, true⟩], [⟨5, 7⟩], [((2, 5), 0)], 0⟩ :
        BufState).desc i).pinCnt) ∧
    hlookup [((2, 5), 0)] 9 9 = none ∧
    (readPage ⟨fun _ _ => none, fun _ => 0⟩
      ⟨1, [⟨some 2, 5, 1, false, true, true⟩], [⟨5, 7⟩], [((2, 5), 0)], 0⟩ 9 9).1 =
      .error .bufferExceeded ∧
    ¬ (readPage ⟨fun _ _ => none, fun _ => 0⟩
      ⟨1, [⟨some 2, 5, 1, false, true, true⟩], [⟨5, 7⟩], [((2, 5), 0)], 0⟩ 9 9).2.1 =
      ⟨1, [⟨some 2, 5, 1, false, true, true⟩], [⟨5, 7⟩], [((2, 5), 0)], 0⟩ :=
  ⟨by decide, by decide, rfl, by decide⟩

/-- Witness for claim C2 (amended): the failing miss on the fully pinned
one-frame pool leaves everything unchanged except the cleared reference bit. -/
theorem c2_saturated_buffer_exceeded_witness :
    (readPage ⟨fun _ _ => none, fun _ => 0⟩
      ⟨1, [⟨some 2, 5, 1, false, true, true⟩], [⟨5, 7⟩], [((2, 5), 0)], 0⟩ 9 9).2.1 =
      ⟨1, [⟨some 2, 5, 1, false, false, true⟩], [⟨5, 7⟩], [((2, 5), 0)], 0⟩ := by
  have h := c2_saturated_buffer_exceeded ⟨fun _ _ => none, fun _ => 0⟩
    ⟨1, [⟨some 2, 5, 1, false, true, true⟩], [⟨5, 7⟩], [((2, 5), 0)], 0⟩
    rfl (by decide) (by decide) (by decide) 9 9 rfl
  rw [h.1]
  decide

/-! Claim C8: a failed file read on a miss installs nothing. -/

/-- Claim C8: when `readPage` misses and the subsequent `file->readPage`
fails, the failure propagates to the caller, no frame-index entry for
`(file, pageNo)` is inserted — none existed before the call and the sweep
only removes entries — and the frame obtained from `allocBuf` remains
invalid: the page is not installed. -/
theorem c8_readPage_file_failure (fs : FileOracle) (st : BufState)
    (file : FileId) (pageNo : PageId)
    (hmiss : hlookup st.hashTable file pageNo = none)
    (hfail : fs.readPage file pageNo = none)
    (hn : 0 < st.numBufs) (hc : st.clockHand < st.numBufs) :
    ∀ f st1 evs, allocBuf st = (.ok f, st1, evs) →
      readPage fs st file pageNo =
        (.error (.invalidPage file pageNo), st1, evs ++ [IOEvent.readP file pageNo]) ∧
      (st1.desc f).valid = false ∧
      (∀ e ∈ st1.hashTable, ¬ e.1 = (file, pageNo)) := by
  intro f st1 evs hAB
  obtain ⟨-, hinv, -, -, -, -, hsub, -, -, -⟩ := allocBuf_ok_facts hn hc hAB
  refine ⟨by simp [readPage, hmiss, hAB, hfail], hinv, ?_⟩
  intro e he
  exact hlookup_none_iff.mp hmiss e (hsub e he)

/-- Witness for claim C8: reading an unreadable page into a fresh one-frame
manager propagates InvalidPage and leaves the frame invalid. -/
theorem c8_readPage_file_failure_witness :
    (readPage ⟨fun _ _ => none, fun _ => 0⟩ (mkBufMgr 1) 3 4).1 =
        .error (.invalidPage 3 4) ∧
      ((readPage ⟨fun _ _ => none, fun _ => 0⟩ (mkBufMgr 1) 3 4).2.1.desc 0).valid =
        false := by
  have h := c8_readPage_file_failure ⟨fun _ _ => none, fun _ => 0⟩ (mkBufMgr 1) 3 4
    rfl rfl (by decide) (by decide) 0 (mkBufMgr 1) [] rfl
  constructor
  · rw [h.1]
  · rw [h.1]
    exact h.2.1

/-! Claim C6: the two paths of `readPage`. -/

/-- Claim C6: on a hit, `readPage` increments the frame's pin count, raises
its reference bit and returns that frame; on a miss it obtains a frame from
`allocBuf`, loads the page the file returns into that frame's page slot,
inserts the key into the frame index, and leaves the descriptor holding that
file and page with `pinCnt = 1`, `dirty = false`, `refbit = true`,
`valid = true`, returning the frame. -/
theorem c6_readPage_hit_and_miss (fs : FileOracle) (st : BufState)
    (file : FileId) (pageNo : PageId)
    (hn : 0 < st.numBufs) (hc : st.clockHand < st.numBufs)
    (hlen : st.bufDescTable.length = st.numBufs) :
    (∀ f, hlookup st.hashTable file pageNo = some f → f < st.numBufs →
      (readPage fs st file pageNo).1 = .ok f ∧
      (readPage fs st file pageNo).2.1.desc f =
        { st.desc f with pinCnt := (st.desc f).pinCnt + 1, refbit := true }) ∧
    (∀ f st1 evs pg, hlookup st.hashTable file pageNo = none →
      allocBuf st = (.ok f, st1, evs) → fs.readPage file pageNo = some pg →
      (readPage fs st file pageNo).1 = .ok f ∧
      (readPage fs st file pageNo).2.2 = evs ++ [IOEvent.readP file pageNo] ∧
      (readPage fs st file pageNo).2.1.bufPool = st1.bufPool.set f pg ∧
      (readPage fs st file pageNo).2.1.hashTable = hinsert st1.hashTable file pageNo f ∧
      (readPage fs st file pageNo).2.1.desc f =
        { file := some file, pageNo := pageNo, pinCnt := 1, dirty := false,
          refbit := true, valid := true } ∧
      (∀ j, j ≠ f → (readPage fs st file pageNo).2.1.desc j = st1.desc j) ∧
      (readPage fs st file pageNo).2.1.clockHand = st1.clockHand ∧
      (readPage fs st file pageNo).2.1.numBufs = st1.numBufs) := by
  constructor
  · intro f hf hflt
    have h := c9_readPage_hit_frame_effect fs st file pageNo f hf (by rw [hlen]; exact hflt)
    exact ⟨h.1, h.2.2.1⟩
  · intro f st1 evs pg hmiss hAB hread
    obtain ⟨hfn, -, hlen1, -, -, -, -, -, -, -⟩ := allocBuf_ok_facts hn hc hAB
    have hflen1 : f < st1.bufDescTable.length := by rw [hlen1, hlen]; exact hfn
    have hres : readPage fs st file pageNo =
        (.ok f,
          ((({ st1 with bufPool := st1.bufPool.set f pg, hashTable := hinsert st1.hashTable file pageNo f } : BufState).setDesc f
            (BufDesc.Set file pageNo)).setRefbitTo f true),
          evs ++ [IOEvent.readP file pageNo]) := by
      simp [readPage, hmiss, hAB, hread]
    rw [hres]
    have hmidlen : f < (({ st1 with bufPool := st1.bufPool.set f pg, hashTable := hinsert st1.hashTable file pageNo f } : BufState).setDesc f
          (BufDesc.Set file pageNo)).bufDescTable.length := by
      simpa [BufState.setDesc] using hflen1
    have hdf : (({ st1 with bufPool := st1.bufPool.set f pg, hashTable := hinsert st1.hashTable file pageNo f } : BufState).setDesc f
          (BufDesc.Set file pageNo)).desc f = BufDesc.Set file pageNo :=
      desc_setDesc_self _ (by simpa [BufState.setDesc] using hflen1)
    refine ⟨rfl, rfl, rfl, rfl, ?_, ?_, rfl, rfl⟩
    · show (_ : BufState).desc f = _
      unfold BufState.setRefbitTo
      rw [desc_setDesc_self _ hmidlen, hdf]
      rfl
    · intro j hj
      show (_ : BufState).desc j = _
      unfold BufState.setRefbitTo
      rw [desc_setDesc_ne _ j hj, desc_setDesc_ne _ j hj]
      rfl

/-- Witness for claim C6: a miss on a fresh one-frame manager installs the
page with a fully initialised descriptor. -/
theorem c6_readPage_hit_and_miss_witness :
    (readPage ⟨fun _ _ => some ⟨4, 9⟩, fun _ => 0⟩ (mkBufMgr 1) 3 4).2.1.desc 0 =
      { file := some 3, pageNo := 4, pinCnt := 1, dirty := false,
        refbit := true, valid := true } := by
  have h := (c6_readPage_hit_and_miss ⟨fun _ _ => some ⟨4, 9⟩, fun _ => 0⟩ (mkBufMgr 1)
    3 4 (by decide) (by decide) rfl).2 0 (mkBufMgr 1) [] ⟨4, 9⟩ rfl rfl rfl
  exact h.2.2.2.2.1

/-! Preservation of the residency invariant by every operation. -/

lemma inv_allocBuf {st : BufState} (hInv : Inv st) : Inv (allocBuf st).2.1 := by
  obtain ⟨hd, hpl, hck, hip, hen, hva, hku, hfu⟩ := hInv
  have hn : 0 < st.numBufs := by omega
  have L := allocBuf_spec st hn hck
  rcases hfind : (List.range (2 * st.numBufs)).find? (okC st) with _ | k
  · obtain ⟨-, -, p1, p2, p3, p4, p5, p6⟩ := (loopPost_none_iff hfind).mp L
    refine ⟨?_, ?_, ?_, ?_, ?_, ?_, ?_, ?_⟩
    · rw [p4, p1]; exact hd
    · rw [p2, p1]; exact hpl
    · rw [p5, p1]; exact Nat.mod_lt _ hn
    · intro i hi
      rw [p1] at hi
      rw [p6 i]
      by_cases hvb : visitedB st (2 * st.numBufs) i
      · rw [if_pos hvb]; exact hip i hi
      · rw [if_neg hvb]; exact hip i hi
    · intro e he
      rw [p3] at he
      have h := hen e he
      refine ⟨by rw [p1]; exact h.1, ?_, ?_, ?_⟩ <;> rw [p6 e.2]
      · by_cases hvb : visitedB st (2 * st.numBufs) e.2
        · rw [if_pos hvb]; exact h.2.1
        · rw [if_neg hvb]; exact h.2.1
      · by_cases hvb : visitedB st (2 * st.numBufs) e.2
        · rw [if_pos hvb]; exact h.2.2.1
        · rw [if_neg hvb]; exact h.2.2.1
      · by_cases hvb : visitedB st (2 * st.numBufs) e.2
        · rw [if_pos hvb]; exact h.2.2.2
        · rw [if_neg hvb]; exact h.2.2.2
    · intro i hi hv
      rw [p1] at hi
      rw [p6 i] at hv ⊢
      rw [p3]
      by_cases hvb : visitedB st (2 * st.numBufs) i
      · rw [if_pos hvb] at hv ⊢; exact hva i hi hv
      · rw [if_neg hvb] at hv ⊢; exact hva i hi hv
    · rw [p3]; exact hku
    · rw [p3]; exact hfu
  · obtain ⟨h1, h2, o1, o2, o3, o4, o5, o6⟩ := (loopPost_some_iff hfind).mp L
    have hqlt : (st.clockHand + 1 + k) % st.numBufs < st.numBufs := Nat.mod_lt _ hn
    by_cases hvT : (st.desc ((st.clockHand + 1 + k) % st.numBufs)).valid = true
    · -- a valid victim was evicted
      rw [if_pos hvT] at o5
      have hkey := hva _ hqlt hvT
      refine ⟨?_, ?_, ?_, ?_, ?_, ?_, ?_, ?_⟩
      · rw [o3, o1]; exact hd
      · rw [o2, o1]; exact hpl
      · rw [o4, o1]; exact hqlt
      · intro i hi
        rw [o1] at hi
        rw [o6 i]
        by_cases hiq : i = (st.clockHand + 1 + k) % st.numBufs
        · rw [if_pos hiq, hiq, if_pos hvT]
          intro _
          rfl
        · rw [if_neg hiq]
          by_cases hvb : visitedB st k i
          · rw [if_pos hvb]; exact hip i hi
          · rw [if_neg hvb]; exact hip i hi
      · intro e he
        rw [o5] at he
        obtain ⟨he', hne⟩ := mem_hremove he
        have h := hen e he'
        have heq : ¬ e.2 = (st.clockHand + 1 + k) % st.numBufs := by
          intro heq2
          apply hne
          have hfe := h.2.2.1
          rw [heq2] at hfe
          have hpe := h.2.2.2
          rw [heq2] at hpe
          rw [hfe]
          simp only [Option.getD_some]
          rw [hpe]
        refine ⟨by rw [o1]; exact h.1, ?_, ?_, ?_⟩ <;> rw [o6 e.2, if_neg heq]
        · by_cases hvb : visitedB st k e.2
          · rw [if_pos hvb]; exact h.2.1
          · rw [if_neg hvb]; exact h.2.1
        · by_cases hvb : visitedB st k e.2
          · rw [if_pos hvb]; exact h.2.2.1
          · rw [if_neg hvb]; exact h.2.2.1
        · by_cases hvb : visitedB st k e.2
          · rw [if_pos hvb]; exact h.2.2.2
          · rw [if_neg hvb]; exact h.2.2.2
      · intro i hi hv
        rw [o1] at hi
        rw [o6 i] at hv ⊢
        rw [o5]
        by_cases hiq : i = (st.clockHand + 1 + k) % st.numBufs
        · rw [if_pos hiq, hiq, if_pos hvT] at hv
          exact absurd hv (by simp [clearedDesc])
        · rw [if_neg hiq] at hv ⊢
          have step : ∀ hvv : (st.desc i).valid = true,
              (st.desc i).file = some ((st.desc i).file.getD 0) ∧
              (((st.desc i).file.getD 0, (st.desc i).pageNo), i) ∈ hremove st.hashTable
                ((st.desc ((st.clockHand + 1 + k) % st.numBufs)).file.getD 0)
                (st.desc ((st.clockHand + 1 + k) % st.numBufs)).pageNo := by
            intro hvv
            obtain ⟨hf1, hm1⟩ := hva i hi hvv
            refine ⟨hf1, mem_hremove_of_ne hm1 ?_⟩
            intro hk
            have hmq := hkey.2
            have hkeq : (((st.desc i).file.getD 0, (st.desc i).pageNo), i) =
                (((st.desc ((st.clockHand + 1 + k) % st.numBufs)).file.getD 0,
                  (st.desc ((st.clockHand + 1 + k) % st.numBufs)).pageNo),
                  (st.clockHand + 1 + k) % st.numBufs) := by
              apply List.inj_on_of_nodup_map hku hm1 hmq
              simpa using hk
            have := congrArg Prod.snd hkeq
            simp only at this
            exact hiq this
          by_cases hvb : visitedB st k i
          · rw [if_pos hvb] at hv ⊢; exact step hv
          · rw [if_neg hvb] at hv ⊢; exact step hv
      · rw [o5]
        exact List.Nodup.sublist (List.Sublist.map _ (hremove_sublist _ _ _)) hku
      · rw [o5]
        exact List.Nodup.sublist (List.Sublist.map _ (hremove_sublist _ _ _)) hfu
    · -- the frame was simply invalid: nothing evicted
      rw [if_neg hvT] at o5
      refine ⟨?_, ?_, ?_, ?_, ?_, ?_, ?_, ?_⟩
      · rw [o3, o1]; exact hd
      · rw [o2, o1]; exact hpl
      · rw [o4, o1]; exact hqlt
      · intro i hi
        rw [o1] at hi
        rw [o6 i]
        by_cases hiq : i = (st.clockHand + 1 + k) % st.numBufs
        · rw [if_pos hiq, hiq, if_neg hvT]
          exact hip _ hqlt
        · rw [if_neg hiq]
          by_cases hvb : visitedB st k i
          · rw [if_pos hvb]; exact hip i hi
          · rw [if_neg hvb]; exact hip i hi
      · intro e he
        rw [o5] at he
        have h := hen e he
        have heq : ¬ e.2 = (st.clockHand + 1 + k) % st.numBufs := by
          intro heq2
          apply hvT
          rw [← heq2]
          exact h.2.1
        refine ⟨by rw [o1]; exact h.1, ?_, ?_, ?_⟩ <;> rw [o6 e.2, if_neg heq]
        · by_cases hvb : visitedB st k e.2
          · rw [if_pos hvb]; exact h.2.1
          · rw [if_neg hvb]; exact h.2.1
        · by_cases hvb : visitedB st k e.2
          · rw [if_pos hvb]; exact h.2.2.1
          · rw [if_neg hvb]; exact h.2.2.1
        · by_cases hvb : visitedB st k e.2
          · rw [if_pos hvb]; exact h.2.2.2
          · rw [if_neg hvb]; exact h.2.2.2
      · intro i hi hv
        rw [o1] at hi
        rw [o6 i] at hv ⊢
        rw [o5]
        by_cases hiq : i = (st.clockHand + 1 + k) % st.numBufs
        · rw [if_pos hiq, hiq, if_neg hvT] at hv
          rw [if_pos hiq, hiq, if_neg hvT]
          exact hva _ hqlt hv
        · rw [if_neg hiq] at hv ⊢
          by_cases hvb : visitedB st k i
          · rw [if_pos hvb] at hv ⊢; exact hva i hi hv
          · rw [if_neg hvb] at hv ⊢; exact hva i hi hv
      · rw [o5]; exact hku
      · rw [o5]; exact hfu

lemma set_of_length_le {α : Type} : ∀ (l : List α) (i : Nat) (a : α), l.length ≤ i →
    l.set i a = l := by
  intro l
  induction l with
  | nil => intro i a _; rfl
  | cons x xs ih =>
    intro i a h
    cases i with
    | zero => simp at h
    | succ j =>
      simp only [List.set]
      rw [ih j a (by simpa using h)]

lemma getD_replicate {α : Type} (n : Nat) (a : α) (i : Nat) :
    (List.replicate n a).getD i a = a := by
  induction n generalizing i with
  | zero => simp
  | succ m ih =>
    cases i with
    | zero => simp
    | succ j => simpa using ih j

/-- Replacing one descriptor while keeping its identity fields (file, page,
validity) intact preserves the residency invariant. -/
lemma inv_setDesc_preserve {st : BufState} (hInv : Inv st) (f : Nat) (dnew : BufDesc)
    (hfile : dnew.file = (st.desc f).file) (hpage : dnew.pageNo = (st.desc f).pageNo)
    (hvalid : dnew.valid = (st.desc f).valid)
    (hpv : dnew.valid = true ∨ dnew.pinCnt = 0) :
    Inv (st.setDesc f dnew) := by
  obtain ⟨hd, hpl, hck, hip, hen, hva, hku, hfu⟩ := hInv
  by_cases hflen : f < st.bufDescTable.length
  case neg =>
    have hsame : st.setDesc f dnew = st := by
      unfold BufState.setDesc
      rw [set_of_length_le _ _ _ (Nat.le_of_not_lt hflen)]
    rw [hsame]
    exact ⟨hd, hpl, hck, hip, hen, hva, hku, hfu⟩
  case pos =>
    have hdf : (st.setDesc f dnew).desc f = dnew := desc_setDesc_self _ hflen
    have hdj : ∀ j, j ≠ f → (st.setDesc f dnew).desc j = st.desc j :=
      fun j hj => desc_setDesc_ne _ j hj
    refine ⟨?_, hpl, hck, ?_, ?_, ?_, hku, hfu⟩
    · show (st.bufDescTable.set f dnew).length = st.numBufs
      rw [List.length_set]
      exact hd
    · intro i hi
      by_cases hif : i = f
      · rw [hif, hdf]
        intro hv
        rcases hpv with h | h
        · rw [h] at hv; cases hv
        · exact h
      · rw [hdj i hif]
        exact hip i hi
    · intro e he
      have h := hen e he
      refine ⟨h.1, ?_, ?_, ?_⟩
      · by_cases hif : e.2 = f
        · rw [hif, hdf, hvalid, ← hif]
          exact h.2.1
        · rw [hdj e.2 hif]
          exact h.2.1
      · by_cases hif : e.2 = f
        · rw [hif, hdf, hfile, ← hif]
          exact h.2.2.1
        · rw [hdj e.2 hif]
          exact h.2.2.1
      · by_cases hif : e.2 = f
        · rw [hif, hdf, hpage, ← hif]
          exact h.2.2.2
        · rw [hdj e.2 hif]
          exact h.2.2.2
    · intro i hi hv
      by_cases hif : i = f
      · rw [hif, hdf] at hv ⊢
        rw [hvalid] at hv
        rw [hfile, hpage]
        rw [hif] at hi
        exact hva f hi hv
      · rw [hdj i hif] at hv ⊢
        exact hva i hi hv

lemma desc_mkBufMgr (n i : Nat) : (mkBufMgr n).desc i = clearedDesc := by
  unfold mkBufMgr BufState.desc
  exact getD_replicate n clearedDesc i

lemma inv_mkBufMgr {n : Nat} (hn : 1 ≤ n) : Inv (mkBufMgr n) := by
  refine ⟨by simp [mkBufMgr], by simp [mkBufMgr], ?_, ?_, by simp [mkBufMgr], ?_,
    by simp [mkBufMgr], by simp [mkBufMgr]⟩
  · show n - 1 < n
    omega
  · intro i _ _
    rw [desc_mkBufMgr]
    rfl
  · intro i _ hv
    rw [desc_mkBufMgr] at hv
    cases hv

lemma inv_unPinPage {st : BufState} (hInv : Inv st) (file : FileId) (pageNo : PageId)
    (d : Bool) : Inv (unPinPage st file pageNo d).2.1 := by
  rcases hl : hlookup st.hashTable file pageNo with _ | f
  · have hres : unPinPage st file pageNo d = (.ok (), st, []) := by simp [unPinPage, hl]
    rw [hres]
    exact hInv
  · have hmem := hlookup_some_mem hl
    have hvf : (st.desc f).valid = true := by
      obtain ⟨-, -, -, -, hen, -, -, -⟩ := hInv
      exact (hen _ hmem).2.1
    by_cases hp0 : (st.desc f).pinCnt = 0
    · have hres : unPinPage st file pageNo d =
          (.error (.pageNotPinned file pageNo f), st, []) := by simp [unPinPage, hl, hp0]
      rw [hres]
      exact hInv
    · have step1 : Inv (st.setDesc f { st.desc f with pinCnt := (st.desc f).pinCnt - 1 }) :=
        inv_setDesc_preserve hInv f _ rfl rfl rfl (Or.inl hvf)
      cases d with
      | false =>
        have hres : unPinPage st file pageNo false =
            (.ok (), st.setDesc f { st.desc f with pinCnt := (st.desc f).pinCnt - 1 }, []) := by
          simp [unPinPage, hl, hp0]
        rw [hres]
        exact step1
      | true =>
        have hres : unPinPage st file pageNo true =
            (.ok (), (st.setDesc f { st.desc f with pinCnt := (st.desc f).pinCnt - 1 }).setDesc f
              { (st.setDesc f { st.desc f with pinCnt := (st.desc f).pinCnt - 1 }).desc f with
                  dirty := true }, []) := by
          simp [unPinPage, hl, hp0]
        rw [hres]
        refine inv_setDesc_preserve step1 f _ rfl rfl rfl (Or.inl ?_)
        by_cases hflen : f < st.bufDescTable.length
        · show ((st.setDesc f { st.desc f with pinCnt := (st.desc f).pinCnt - 1 }).desc f).valid =
            true
          rw [desc_setDesc_self _ hflen]
          exact hvf
        · show ((st.setDesc f { st.desc f with pinCnt := (st.desc f).pinCnt - 1 }).desc f).valid =
            true
          unfold BufState.setDesc
          rw [set_of_length_le _ _ _ (Nat.le_of_not_lt hflen)]
          exact hvf

/-- Installing a fresh page into an invalid frame — the common tail of the
`readPage` miss path and of `allocPage` — preserves the residency invariant. -/
lemma inv_install {st1 : BufState} (hInv1 : Inv st1) (f : Nat) (file : FileId)
    (pageNo : PageId) (pg : Pg)
    (hfn : f < st1.numBufs)
    (hinvf : (st1.desc f).valid = false)
    (hfresh : ∀ e ∈ st1.hashTable, ¬ e.1 = (file, pageNo)) :
    Inv (({ st1 with bufPool := st1.bufPool.set f pg, hashTable := hinsert st1.hashTable file pageNo f } : BufState).setDesc f
      (BufDesc.Set file pageNo)) := by
  obtain ⟨hd1, hpl1, hck1, hip1, hen1, hva1, hku1, hfu1⟩ := hInv1
  have hflen : f < st1.bufDescTable.length := by rw [hd1]; exact hfn
  have hdf : (({ st1 with bufPool := st1.bufPool.set f pg, hashTable := hinsert st1.hashTable file pageNo f } : BufState).setDesc f
      (BufDesc.Set file pageNo)).desc f = BufDesc.Set file pageNo :=
    desc_setDesc_self _ (by simpa using hflen)
  have hdj : ∀ j, j ≠ f →
      (({ st1 with bufPool := st1.bufPool.set f pg, hashTable := hinsert st1.hashTable file pageNo f } : BufState).setDesc f
        (BufDesc.Set file pageNo)).desc j = st1.desc j := by
    intro j hj
    rw [desc_setDesc_ne _ j hj]
    rfl
  have hframe_ne : ∀ e ∈ st1.hashTable, ¬ e.2 = f := by
    intro e he heq
    have := (hen1 e he).2.1
    rw [heq, hinvf] at this
    cases this
  refine ⟨?_, ?_, hck1, ?_, ?_, ?_, ?_, ?_⟩
  · show (st1.bufDescTable.set f (BufDesc.Set file pageNo)).length = st1.numBufs
    rw [List.length_set]
    exact hd1
  · show (st1.bufPool.set f pg).length = st1.numBufs
    rw [List.length_set]
    exact hpl1
  · intro i hi
    by_cases hif : i = f
    · rw [hif, hdf]
      intro hv
      cases hv
    · rw [hdj i hif]
      exact hip1 i hi
  · intro e he
    rcases List.mem_cons.mp he with rfl | he'
    · exact ⟨hfn, by rw [hdf]; rfl, by rw [hdf]; rfl, by rw [hdf]; rfl⟩
    · have h := hen1 e he'
      have hne := hframe_ne e he'
      exact ⟨h.1, by rw [hdj e.2 hne]; exact h.2.1, by rw [hdj e.2 hne]; exact h.2.2.1,
        by rw [hdj e.2 hne]; exact h.2.2.2⟩
  · intro i hi hv
    by_cases hif : i = f
    · rw [hif, hdf]
      refine ⟨rfl, ?_⟩
      exact List.mem_cons_self _ _
    · rw [hdj i hif] at hv ⊢
      obtain ⟨h1, h2⟩ := hva1 i hi hv
      exact ⟨h1, List.mem_cons_of_mem _ h2⟩
  · show ((((file, pageNo), f) :: st1.hashTable).map Prod.fst).Nodup
    rw [List.map_cons]
    refine List.nodup_cons.mpr ⟨?_, hku1⟩
    intro hmem
    obtain ⟨e, he, heq⟩ := List.mem_map.mp hmem
    exact hfresh e he heq
  · show ((((file, pageNo), f) :: st1.hashTable).map Prod.snd).Nodup
    rw [List.map_cons]
    refine List.nodup_cons.mpr ⟨?_, hfu1⟩
    intro hmem
    obtain ⟨e, he, heq⟩ := List.mem_map.mp hmem
    exact hframe_ne e he heq

lemma inv_readPage {st : BufState} (hInv : Inv st) (fs : FileOracle)
    (file : FileId) (pageNo : PageId) : Inv (readPage fs st file pageNo).2.1 := by
  rcases hl : hlookup st.hashTable file pageNo with _ | f
  case some =>
    have hmem := hlookup_some_mem hl
    have hen' := hInv.2.2.2.2.1
    obtain ⟨hfn, hvf, -, -⟩ := hen' _ hmem
    have hflen : f < st.bufDescTable.length := by rw [hInv.1]; exact hfn
    have hres : readPage fs st file pageNo =
        (.ok f, (st.setDesc f { st.desc f with pinCnt := (st.desc f).pinCnt + 1 }).setRefbitTo
          f true, []) := by
      simp [readPage, hl]
    rw [hres]
    have step1 : Inv (st.setDesc f { st.desc f with pinCnt := (st.desc f).pinCnt + 1 }) :=
      inv_setDesc_preserve hInv f _ rfl rfl rfl (Or.inl hvf)
    exact inv_setDesc_preserve step1 f _ rfl rfl rfl
      (Or.inl (by rw [show ((st.setDesc f { st.desc f with
          pinCnt := (st.desc f).pinCnt + 1 }).desc f).valid =
          ({ st.desc f with pinCnt := (st.desc f).pinCnt + 1 } : BufDesc).valid from
          by rw [desc_setDesc_self _ hflen]]; exact hvf))
  case none =>
    have hn : 0 < st.numBufs := by
      have := hInv.2.2.1
      omega
    have hc : st.clockHand < st.numBufs := hInv.2.2.1
    rcases hAB : allocBuf st with ⟨r, st1, evs⟩
    have hInv1 : Inv st1 := by
      have := inv_allocBuf hInv
      rw [hAB] at this
      exact this
    rcases r with e | f
    · have hres : readPage fs st file pageNo = (.error e, st1, evs) := by
        simp [readPage, hl, hAB]
      rw [hres]
      exact hInv1
    · rcases hread : fs.readPage file pageNo with _ | pg
      · have hres : readPage fs st file pageNo =
            (.error (.invalidPage file pageNo), st1, evs ++ [IOEvent.readP file pageNo]) := by
          simp [readPage, hl, hAB, hread]
        rw [hres]
        exact hInv1
      · obtain ⟨hfn, hinvf, -, hnum, -, -, hsub, -, -, -⟩ := allocBuf_ok_facts hn hc hAB
        have hfresh : ∀ e ∈ st1.hashTable, ¬ e.1 = (file, pageNo) := by
          intro e he
          exact hlookup_none_iff.mp hl e (hsub e he)
        have base := inv_install hInv1 f file pageNo pg (by rw [hnum]; exact hfn) hinvf hfresh
        have hres : readPage fs st file pageNo =
            (.ok f,
              ((({ st1 with bufPool := st1.bufPool.set f pg, hashTable := hinsert st1.hashTable file pageNo f } : BufState).setDesc f
                (BufDesc.Set file pageNo)).setRefbitTo f true),
              evs ++ [IOEvent.readP file pageNo]) := by
          simp [readPage, hl, hAB, hread]
        rw [hres]
        have hflen1 : f < st1.bufDescTable.length := by
          rw [hInv1.1, hnum]
          exact hfn
        exact inv_setDesc_preserve base f _ rfl rfl rfl
          (Or.inl (by rw [show ((({ st1 with bufPool := st1.bufPool.set f pg, hashTable := hinsert st1.hashTable file pageNo f } : BufState).setDesc f
            (BufDesc.Set file pageNo)).desc f).valid = (BufDesc.Set file pageNo).valid from
            by rw [desc_setDesc_self _ (by simpa using hflen1)]]; rfl))

lemma inv_allocPage {st : BufState} (hInv : Inv st) (fs : FileOracle) (file : FileId)
    (hfresh0 : hlookup st.hashTable file (fs.allocatePage file) = none) :
    Inv (allocPage fs st file).2.1 := by
  have hn : 0 < st.numBufs := by
    have := hInv.2.2.1
    omega
  have hc : st.clockHand < st.numBufs := hInv.2.2.1
  rcases hAB : allocBuf st with ⟨r, st1, evs⟩
  have hInv1 : Inv st1 := by
    have := inv_allocBuf hInv
    rw [hAB] at this
    exact this
  rcases r with e | f
  · have hres : (allocPage fs st file).2.1 = st1 := by
      simp [allocPage, hAB]
    rw [hres]
    exact hInv1
  · rcases hread : fs.readPage file (fs.allocatePage file) with _ | pg
    · have hres : (allocPage fs st file).2.1 = st1 := by
        simp [allocPage, hAB, hread]
      rw [hres]
      exact hInv1
    · obtain ⟨hfn, hinvf, -, hnum, -, -, hsub, -, -, -⟩ := allocBuf_ok_facts hn hc hAB
      have hfresh : ∀ e ∈ st1.hashTable, ¬ e.1 = (file, fs.allocatePage file) := by
        intro e he
        exact hlookup_none_iff.mp hfresh0 e (hsub e he)
      have base := inv_install hInv1 f file (fs.allocatePage file) pg
        (by rw [hnum]; exact hfn) hinvf hfresh
      have hres : (allocPage fs st file).2.1 =
          ({ st1 with bufPool := st1.bufPool.set f pg, hashTable := hinsert st1.hashTable file (fs.allocatePage file) f } : BufState).setDesc f
            (BufDesc.Set file (fs.allocatePage file)) := by
        simp [allocPage, hAB, hread]
      rw [hres]
      exact base

lemma inv_flushFile {st : BufState} (hInv : Inv st) (file : FileId) :
    Inv (flushFile st file).2.1 := by
  obtain ⟨hd, hpl, hck, hip, hen, hva, hku, hfu⟩ := hInv
  rcases hch : flushCheck st file (List.range st.numBufs) with _ | e
  case some =>
    have hres : (flushFile st file).2.1 = st := by
      simp [flushFile, hch]
    rw [hres]
    exact ⟨hd, hpl, hck, hip, hen, hva, hku, hfu⟩
  case none =>
    have hres : (flushFile st file).2.1 =
        ((List.range st.numBufs).foldl (flushStep file) (st, [])).1 := by
      simp [flushFile, hch]
    rw [hres]
    have FO := flushFold_spec file (List.range st.numBufs) st [] (List.nodup_range _)
    refine ⟨?_, ?_, ?_, ?_, ?_, ?_, ?_, ?_⟩
    · rw [FO.len, FO.numBufs]
      exact hd
    · rw [FO.pool, FO.numBufs]
      exact hpl
    · rw [FO.clock, FO.numBufs]
      exact hck
    · intro i hi
      rw [FO.numBufs] at hi
      by_cases hm : (st.desc i).file = some file
      · rw [FO.clearedAt i (List.mem_range.mpr hi) hm]
        intro _
        rfl
      · rw [FO.skipped i (List.mem_range.mpr hi) hm]
        exact hip i hi
    · intro e he
      have he' := FO.sub.subset he
      obtain ⟨h1, h2, h3, h4⟩ := hen e he'
      by_cases hm : (st.desc e.2).file = some file
      · exfalso
        have hkey := FO.removed e.2 (List.mem_range.mpr h1) hm e he
        apply hkey
        have hfe : e.1.1 = file := by
          have := h3.symm.trans hm
          exact Option.some_inj.mp this
        rw [h4, ← hfe]
      · rw [FO.skipped e.2 (List.mem_range.mpr h1) hm]
        exact ⟨by rw [FO.numBufs]; exact h1, h2, h3, h4⟩
    · intro i hi hv
      rw [FO.numBufs] at hi
      by_cases hm : (st.desc i).file = some file
      · rw [FO.clearedAt i (List.mem_range.mpr hi) hm] at hv
        cases hv
      · rw [FO.skipped i (List.mem_range.mpr hi) hm] at hv ⊢
        obtain ⟨h1, h2⟩ := hva i hi hv
        refine ⟨h1, ?_⟩
        refine FO.kept _ h2 ?_
        intro hfe
        have hfe' : (st.desc i).file.getD 0 = file := hfe
        apply hm
        rw [h1, hfe']
    · exact List.Nodup.sublist (List.Sublist.map _ FO.sub) hku
    · exact List.Nodup.sublist (List.Sublist.map _ FO.sub) hfu

lemma inv_disposePage {st : BufState} (hInv : Inv st) (file : FileId) (pageNo : PageId) :
    Inv (disposePage st file pageNo).2.1 := by
  obtain ⟨hd, hpl, hck, hip, hen, hva, hku, hfu⟩ := hInv
  rcases hl : hlookup st.hashTable file pageNo with _ | f
  case none =>
    have hres : (disposePage st file pageNo).2.1 = st := by
      simp [disposePage, hl]
    rw [hres]
    exact ⟨hd, hpl, hck, hip, hen, hva, hku, hfu⟩
  case some =>
    have hmem := hlookup_some_mem hl
    obtain ⟨hfn, hvf, hff, hpf⟩ := hen _ hmem
    have hflen : f < st.bufDescTable.length := by rw [hd]; exact hfn
    have hres : (disposePage st file pageNo).2.1 =
        { st.setDesc f clearedDesc with
            hashTable := hremove (st.setDesc f clearedDesc).hashTable file pageNo } := by
      simp [disposePage, hl]
    rw [hres]
    have hdf : (st.setDesc f clearedDesc).desc f = clearedDesc := desc_setDesc_self _ hflen
    have hdj : ∀ j, j ≠ f → (st.setDesc f clearedDesc).desc j = st.desc j :=
      fun j hj => desc_setDesc_ne _ j hj
    refine ⟨?_, hpl, hck, ?_, ?_, ?_, ?_, ?_⟩
    · show (st.bufDescTable.set f clearedDesc).length = st.numBufs
      rw [List.length_set]
      exact hd
    · intro i hi
      by_cases hif : i = f
      · show ((st.setDesc f clearedDesc).desc i).valid = false →
          ((st.setDesc f clearedDesc).desc i).pinCnt = 0
        rw [hif, hdf]
        intro _
        rfl
      · show ((st.setDesc f clearedDesc).desc i).valid = false →
          ((st.setDesc f clearedDesc).desc i).pinCnt = 0
        rw [hdj i hif]
        exact hip i hi
    · intro e he
      obtain ⟨he', hne⟩ := mem_hremove he
      obtain ⟨h1, h2, h3, h4⟩ := hen e he'
      have hif : ¬ e.2 = f := by
        intro heq
        apply hne
        rw [heq] at h3 h4
        have hfe : e.1.1 = file := by
          have := h3.symm.trans hff
          exact Option.some_inj.mp this
        have hpe : e.1.2 = pageNo := by rw [← h4, hpf]
        rw [show e.1 = (e.1.1, e.1.2) from rfl, hfe, hpe]
      refine ⟨h1, ?_, ?_, ?_⟩
      · show ((st.setDesc f clearedDesc).desc e.2).valid = true
        rw [hdj e.2 hif]
        exact h2
      · show ((st.setDesc f clearedDesc).desc e.2).file = some e.1.1
        rw [hdj e.2 hif]
        exact h3
      · show ((st.setDesc f clearedDesc).desc e.2).pageNo = e.1.2
        rw [hdj e.2 hif]
        exact h4
    · intro i hi hv
      by_cases hif : i = f
      · exfalso
        rw [show ((({ st.setDesc f clearedDesc with
            hashTable := hremove (st.setDesc f clearedDesc).hashTable file pageNo } :
              BufState)).desc i) = (st.setDesc f clearedDesc).desc i from rfl, hif, hdf] at hv
        cases hv
      · rw [show ((({ st.setDesc f clearedDesc with
            hashTable := hremove (st.setDesc f clearedDesc).hashTable file pageNo } :
              BufState)).desc i) = (st.setDesc f clearedDesc).desc i from rfl, hdj i hif] at hv ⊢
        obtain ⟨h1, h2⟩ := hva i hi hv
        refine ⟨h1, ?_⟩
        show _ ∈ hremove (st.setDesc f clearedDesc).hashTable file pageNo
        refine mem_hremove_of_ne h2 ?_
        intro hkey
        have hmq : (((file, pageNo) : FileId × PageId), f) ∈ st.hashTable := hmem
        have hmi : (((file, pageNo) : FileId × PageId), i) ∈ st.hashTable := by
          rw [← hkey]
          exact h2
        have := List.inj_on_of_nodup_map hku hmi hmq rfl
        have hieq := congrArg Prod.snd this
        simp only at hieq
        exact hif hieq
    · exact List.Nodup.sublist (List.Sublist.map _ (hremove_sublist _ _ _)) hku
    · exact List.Nodup.sublist (List.Sublist.map _ (hremove_sublist _ _ _)) hfu

/-- Modelled from the spec: §5/§6 — the states the manager can actually be in:
those produced from a freshly constructed manager by any sequence of public
calls. The `allocPage` step carries §6's contract that `File::allocatePage`
creates a new page, so the page number it hands back is not currently
resident for that file. -/
inductive Reachable : BufState → Prop where
  | init (n : Nat) (hn : 1 ≤ n) : Reachable (mkBufMgr n)
  | read (fs : FileOracle) (st : BufState) (file : FileId) (pageNo : PageId) :
      Reachable st → Reachable (readPage fs st file pageNo).2.1
  | alloc (fs : FileOracle) (st : BufState) (file : FileId) :
      Reachable st → hlookup st.hashTable file (fs.allocatePage file) = none →
      Reachable (allocPage fs st file).2.1
  | unpin (st : BufState) (file : FileId) (pageNo : PageId) (d : Bool) :
      Reachable st → Reachable (unPinPage st file pageNo d).2.1
  | flush (st : BufState) (file : FileId) :
      Reachable st → Reachable (flushFile st file).2.1
  | dispose (st : BufState) (file : FileId) (pageNo : PageId) :
      Reachable st → Reachable (disposePage st file pageNo).2.1

/-- Every reachable manager state satisfies the residency invariant of §3. -/
theorem reachable_inv {st : BufState} (h : Reachable st) : Inv st := by
  induction h with
  | init n hn => exact inv_mkBufMgr hn
  | read fs st file pageNo _ ih => exact inv_readPage ih fs file pageNo
  | alloc fs st file _ hfresh ih => exact inv_allocPage ih fs file hfresh
  | unpin st file pageNo d _ ih => exact inv_unPinPage ih file pageNo d
  | flush st file _ ih => exact inv_flushFile ih file
  | dispose st file pageNo _ ih => exact inv_disposePage ih file pageNo

/-! Claim C1: pinned frames survive every operation except `disposePage`. -/

/-- Frame `i` keeps its identity and contents across a step from `s` to `s'`:
it is neither Cleared (file, page number and validity unchanged) nor has its
page slot overwritten. -/
def framePreserved (s s' : BufState) (i : Nat) : Prop :=
  (s'.desc i).file = (s.desc i).file ∧ (s'.desc i).pageNo = (s.desc i).pageNo ∧
  (s'.desc i).valid = (s.desc i).valid ∧ s'.pool i = s.pool i

instance (s s' : BufState) (i : Nat) : Decidable (framePreserved s s' i) := by
  unfold framePreserved
  infer_instance

/-- Claim C1 (amended): in every reachable manager state, the public
operations `readPage`, `allocPage`, `unPinPage` and `flushFile` never Clear a
frame whose pin count is positive and never overwrite its page slot, and a
pinned frame is never selected by `allocBuf` for eviction. `disposePage` must
be excluded from the original claim: it Clears the disposed page's frame
without checking the pin count. -/
theorem c1_pinned_frame_preserved (st : BufState) (hreach : Reachable st)
    (fs : FileOracle) (file : FileId) (pageNo : PageId) (d : Bool) (i : Nat)
    (hpin : 0 < (st.desc i).pinCnt) :
    framePreserved st (readPage fs st file pageNo).2.1 i ∧
    framePreserved st (allocPage fs st file).2.1 i ∧
    framePreserved st (unPinPage st file pageNo d).2.1 i ∧
    framePreserved st (flushFile st file).2.1 i ∧
    (∀ f, (allocBuf st).1 = .ok f → ¬ f = i) := by
  obtain ⟨hd, hpl, hck, hip, hen, hva, hku, hfu⟩ := reachable_inv hreach
  have hn : 0 < st.numBufs := by omega
  have hflen : i < st.bufDescTable.length := desc_lt_length_of_pin (by omega)
  have hin : i < st.numBufs := by rw [← hd]; exact hflen
  have hnotvic : ∀ f st1 evs, allocBuf st = (.ok f, st1, evs) → ¬ f = i := by
    intro f st1 evs hAB heq
    obtain ⟨hfn, -, -, -, -, -, -, hvic, -, -⟩ := allocBuf_ok_facts hn hck hAB
    subst heq
    by_cases hv : (st.desc f).valid = true
    · have := hvic hv
      omega
    · have hvF : (st.desc f).valid = false := by
        revert hv
        cases (st.desc f).valid <;> simp
      have := hip f hin hvF
      omega
  unfold framePreserved
  refine ⟨?_, ?_, ?_, ?_, ?_⟩
  · -- readPage
    rcases hl : hlookup st.hashTable file pageNo with _ | f0
    · rcases hAB : allocBuf st with ⟨r, st1, evs⟩
      rcases r with e | f
      · obtain ⟨q1, -, -, -, q5⟩ := allocBuf_err_facts hn hck hAB
        have hres : (readPage fs st file pageNo).2.1 = st1 := by
          simp [readPage, hl, hAB]
        rw [hres]
        obtain ⟨-, a2, a3, a4, -⟩ := q5 i
        exact ⟨a2, a3, a4, pool_eq_of_bufPool q1 i⟩
      · obtain ⟨hfn, hinvf, hlen1, hnum1, hpool1, -, -, -, -, hothers1⟩ :=
          allocBuf_ok_facts hn hck hAB
        have hine : i ≠ f := fun hc => hnotvic f st1 evs hAB hc.symm
        rcases hread : fs.readPage file pageNo with _ | pg
        · have hres : (readPage fs st file pageNo).2.1 = st1 := by
            simp [readPage, hl, hAB, hread]
          rw [hres]
          obtain ⟨a1, a2, a3, -⟩ := hothers1 i hine
          exact ⟨a1, a2, a3, pool_eq_of_bufPool hpool1 i⟩
        · have hres : (readPage fs st file pageNo).2.1 =
              ((({ st1 with bufPool := st1.bufPool.set f pg, hashTable := hinsert st1.hashTable file pageNo f } : BufState).setDesc f
                (BufDesc.Set file pageNo)).setRefbitTo f true) := by
            simp [readPage, hl, hAB, hread]
          rw [hres]
          have hdescT : ((({ st1 with bufPool := st1.bufPool.set f pg, hashTable := hinsert st1.hashTable file pageNo f } : BufState).setDesc f
              (BufDesc.Set file pageNo)).setRefbitTo f true).desc i = st1.desc i := by
            unfold BufState.setRefbitTo
            rw [desc_setDesc_ne _ i hine, desc_setDesc_ne _ i hine]
            rfl
          have hpoolT : ((({ st1 with bufPool := st1.bufPool.set f pg, hashTable := hinsert st1.hashTable file pageNo f } : BufState).setDesc f
              (BufDesc.Set file pageNo)).setRefbitTo f true).pool i = st.pool i := by
            show (st1.bufPool.set f pg).getD i ⟨0, 0⟩ = st.pool i
            rw [getD_set_ne _ _ _ _ _ hine]
            exact pool_eq_of_bufPool hpool1 i
          rw [hdescT]
          obtain ⟨a1, a2, a3, -⟩ := hothers1 i hine
          exact ⟨a1, a2, a3, hpoolT⟩
    · have hmem := hlookup_some_mem hl
      have hf0len : f0 < st.bufDescTable.length := by
        rw [hd]
        exact (hen _ hmem).1
      have hres : readPage fs st file pageNo =
          (.ok f0, (st.setDesc f0 { st.desc f0 with pinCnt := (st.desc f0).pinCnt + 1 }).setRefbitTo
            f0 true, []) := by
        simp [readPage, hl]
      rw [hres]
      have hA1len : f0 < (st.setDesc f0
          { st.desc f0 with pinCnt := (st.desc f0).pinCnt + 1 }).bufDescTable.length := by
        simpa [BufState.setDesc] using hf0len
      by_cases hif : i = f0
      · rw [hif]
        have hfin : ((st.setDesc f0 { st.desc f0 with pinCnt := (st.desc f0).pinCnt + 1 }).setRefbitTo
            f0 true).desc f0 =
            { st.desc f0 with pinCnt := (st.desc f0).pinCnt + 1, refbit := true } := by
          unfold BufState.setRefbitTo
          rw [desc_setDesc_self _ hA1len, desc_setDesc_self _ hf0len]
        rw [hfin]
        exact ⟨rfl, rfl, rfl, rfl⟩
      · have hfin : ((st.setDesc f0 { st.desc f0 with pinCnt := (st.desc f0).pinCnt + 1 }).setRefbitTo
            f0 true).desc i = st.desc i := by
          unfold BufState.setRefbitTo
          rw [desc_setDesc_ne _ i hif, desc_setDesc_ne _ i hif]
        rw [hfin]
        exact ⟨rfl, rfl, rfl, rfl⟩
  · -- allocPage
    rcases hAB : allocBuf st with ⟨r, st1, evs⟩
    rcases r with e | f
    · obtain ⟨q1, -, -, -, q5⟩ := allocBuf_err_facts hn hck hAB
      have hres : (allocPage fs st file).2.1 = st1 := by
        simp [allocPage, hAB]
      rw [hres]
      obtain ⟨-, a2, a3, a4, -⟩ := q5 i
      exact ⟨a2, a3, a4, pool_eq_of_bufPool q1 i⟩
    · obtain ⟨hfn, hinvf, hlen1, hnum1, hpool1, -, -, -, -, hothers1⟩ :=
        allocBuf_ok_facts hn hck hAB
      have hine : i ≠ f := fun hc => hnotvic f st1 evs hAB hc.symm
      rcases hread : fs.readPage file (fs.allocatePage file) with _ | pg
      · have hres : (allocPage fs st file).2.1 = st1 := by
          simp [allocPage, hAB, hread]
        rw [hres]
        obtain ⟨a1, a2, a3, -⟩ := hothers1 i hine
        exact ⟨a1, a2, a3, pool_eq_of_bufPool hpool1 i⟩
      · have hres : (allocPage fs st file).2.1 =
            ({ st1 with bufPool := st1.bufPool.set f pg, hashTable := hinsert st1.hashTable file (fs.allocatePage file) f } : BufState).setDesc f
              (BufDesc.Set file (fs.allocatePage file)) := by
          simp [allocPage, hAB, hread]
        rw [hres]
        have hdescT : (({ st1 with bufPool := st1.bufPool.set f pg, hashTable := hinsert st1.hashTable file (fs.allocatePage file) f } : BufState).setDesc f
            (BufDesc.Set file (fs.allocatePage file))).desc i = st1.desc i := by
          rw [desc_setDesc_ne _ i hine]
          rfl
        have hpoolT : (({ st1 with bufPool := st1.bufPool.set f pg, hashTable := hinsert st1.hashTable file (fs.allocatePage file) f } : BufState).setDesc f
            (BufDesc.Set file (fs.allocatePage file))).pool i = st.pool i := by
          show (st1.bufPool.set f pg).getD i ⟨0, 0⟩ = st.pool i
          rw [getD_set_ne _ _ _ _ _ hine]
          exact pool_eq_of_bufPool hpool1 i
        rw [hdescT]
        obtain ⟨a1, a2, a3, -⟩ := hothers1 i hine
        exact ⟨a1, a2, a3, hpoolT⟩
  · -- unPinPage
    rcases hl : hlookup st.hashTable file pageNo with _ | f0
    · have hres : (unPinPage st file pageNo d).2.1 = st := by
        simp [unPinPage, hl]
      rw [hres]
      exact ⟨rfl, rfl, rfl, rfl⟩
    · by_cases hp0 : (st.desc f0).pinCnt = 0
      · have hres : (unPinPage st file pageNo d).2.1 = st := by
          simp [unPinPage, hl, hp0]
        rw [hres]
        exact ⟨rfl, rfl, rfl, rfl⟩
      · have hmem := hlookup_some_mem hl
        have hf0len : f0 < st.bufDescTable.length := by
          rw [hd]
          exact (hen _ hmem).1
        have hA1len : f0 < (st.setDesc f0
            { st.desc f0 with pinCnt := (st.desc f0).pinCnt - 1 }).bufDescTable.length := by
          simpa [BufState.setDesc] using hf0len
        cases d with
        | false =>
          have hres : (unPinPage st file pageNo false).2.1 =
              st.setDesc f0 { st.desc f0 with pinCnt := (st.desc f0).pinCnt - 1 } := by
            simp [unPinPage, hl, hp0]
          rw [hres]
          by_cases hif : i = f0
          · rw [hif, desc_setDesc_self _ hf0len]
            exact ⟨rfl, rfl, rfl, rfl⟩
          · rw [desc_setDesc_ne _ i hif]
            exact ⟨rfl, rfl, rfl, rfl⟩
        | true =>
          have hres : (unPinPage st file pageNo true).2.1 =
              (st.setDesc f0 { st.desc f0 with pinCnt := (st.desc f0).pinCnt - 1 }).setDesc f0
                { (st.setDesc f0 { st.desc f0 with pinCnt := (st.desc f0).pinCnt - 1 }).desc f0 with
                    dirty := true } := by
            simp [unPinPage, hl, hp0]
          rw [hres]
          by_cases hif : i = f0
          · rw [hif, desc_setDesc_self _ hA1len, desc_setDesc_self _ hf0len]
            exact ⟨rfl, rfl, rfl, rfl⟩
          · rw [desc_setDesc_ne _ i hif, desc_setDesc_ne _ i hif]
            exact ⟨rfl, rfl, rfl, rfl⟩
  · -- flushFile
    rcases hch : flushCheck st file (List.range st.numBufs) with _ | e
    · have hnone := (@flushCheck_eq_none st file _).mp hch
      have hres : (flushFile st file).2.1 =
          ((List.range st.numBufs).foldl (flushStep file) (st, [])).1 := by
        simp [flushFile, hch]
      rw [hres]
      have FO := flushFold_spec file (List.range st.numBufs) st [] (List.nodup_range _)
      have hm : ¬ (st.desc i).file = some file := by
        intro hm
        have := (hnone i (List.mem_range.mpr hin) hm).2
        omega
      rw [FO.skipped i (List.mem_range.mpr hin) hm]
      exact ⟨rfl, rfl, rfl, pool_eq_of_bufPool FO.pool i⟩
    · have hres : (flushFile st file).2.1 = st := by
        simp [flushFile, hch]
      rw [hres]
      exact ⟨rfl, rfl, rfl, rfl⟩
  · -- a pinned frame is never the sweep's choice
    intro f hres
    rcases hAB : allocBuf st with ⟨r, st1, evs⟩
    rw [hAB] at hres
    simp only at hres
    subst hres
    exact hnotvic f st1 evs hAB

/-- Counterexample for claim C1 as stated: `disposePage` is among the listed
operations, yet on the reachable state holding one pinned page it Clears that
pinned frame. -/
theorem c1_dispose_clears_pinned_counterexample :
    Reachable (readPage ⟨fun _ _ => some ⟨4, 9⟩, fun _ => 0⟩ (mkBufMgr 1) 3 4).2.1 ∧
    0 < ((readPage ⟨fun _ _ => some ⟨4, 9⟩, fun _ => 0⟩ (mkBufMgr 1) 3 4).2.1.desc 0).pinCnt ∧
    ((disposePage (readPage ⟨fun _ _ => some ⟨4, 9⟩, fun _ => 0⟩ (mkBufMgr 1) 3 4).2.1
        3 4).2.1.desc 0).valid = false :=
  ⟨Reachable.read ⟨fun _ _ => some ⟨4, 9⟩, fun _ => 0⟩ (mkBufMgr 1) 3 4
    (Reachable.init 1 (by omega)), by decide, by decide⟩

/-- Witness for claim C1 (amended): in the reachable one-frame state holding
a pinned page, a further `readPage` of the same page leaves the pinned
frame's identity and contents intact. -/
theorem c1_pinned_frame_preserved_witness :
    framePreserved (readPage ⟨fun _ _ => some ⟨4, 9⟩, fun _ => 0⟩ (mkBufMgr 1) 3 4).2.1
      (readPage ⟨fun _ _ => some ⟨4, 9⟩, fun _ => 0⟩
        (readPage ⟨fun _ _ => some ⟨4, 9⟩, fun _ => 0⟩ (mkBufMgr 1) 3 4).2.1 3 4).2.1 0 :=
  (c1_pinned_frame_preserved
    (readPage ⟨fun _ _ => some ⟨4, 9⟩, fun _ => 0⟩ (mkBufMgr 1) 3 4).2.1
    (Reachable.read ⟨fun _ _ => some ⟨4, 9⟩, fun _ => 0⟩ (mkBufMgr 1) 3 4
      (Reachable.init 1 (by omega)))
    ⟨fun _ _ => some ⟨4, 9⟩, fun _ => 0⟩ 3 4 false 0 (by decide)).1

end BadgerDB
